import Mathlib

/-!
# FunLabs: expression evaluator and trapezoidal integrator (`main.go`)

A shallow embedding of `Eval`, `EvalBinaryExpr`, `EvalUnaryExp`, `Log`,
`DiscreteIntegral.f`, `DiscreteIntegral.Add` and `DiscreteIntegral.Calculate`.
A call returns its value in `Except`: the error is the way the program stopped
(`log.Fatal` on a parse error, or a run-time panic in `Eval`).

Numbers.  A Go `float64` is modelled by `Float64 α`: a finite value taken from a
linearly ordered field `α`, or one of the special values `+Inf`, `-Inf`, `NaN`,
combined by the IEEE rules; the two IEEE zeros are identified.  The program is given
twice.  `Eval`, `f`, `Calculate` compute on finite values without rounding and without
overflow: this is the program in exact arithmetic.  `Rounded.Eval`, `Rounded.f`,
`Rounded.Calculate` are the same definitions with the result of every arithmetic
operation passed through a rounding `ρ`; with `ρ = round64`, the rounding of IEEE
binary64, this is the program as it runs, and with the identity for `ρ` it is the
exact program (`rounded_Calculate_exact`).

Libraries.  `go/parser`, `strconv` and package `math` are not part of the
program; they are the fields of a `GoLib` record that every definition takes as
a parameter (`math.Abs` alone is defined here, on `Float64`).

Integers.  `Intervals` is a Go `int`; it is an `Int` here, and the loop of
`Calculate` is modelled for `Intervals > -2^63`, where `di.Intervals-1` does not wrap.
-/

namespace FunLabs

/-! ## float64 -/

/-- A `float64` value: finite, or an IEEE special value. -/
inductive Float64 (α : Type) where
  | fin (v : α)
  | pinf
  | ninf
  | nan
  deriving DecidableEq, Repr

namespace Float64

variable {α : Type} [LinearOrderedField α]

/-- Unary minus. -/
def neg : Float64 α → Float64 α
  | fin v => fin (-v)
  | pinf => ninf
  | ninf => pinf
  | nan => nan

/-- Addition: `+Inf + -Inf` is `NaN`, `NaN` is absorbing. -/
def add : Float64 α → Float64 α → Float64 α
  | fin x, fin y => fin (x + y)
  | nan, _ => nan
  | _, nan => nan
  | pinf, ninf => nan
  | ninf, pinf => nan
  | pinf, _ => pinf
  | ninf, _ => ninf
  | fin _, pinf => pinf
  | fin _, ninf => ninf

/-- An infinity of the sign of `v`, and `NaN` for `v = 0` (a product `Inf * v`). -/
def infTimes (v : α) : Float64 α :=
  if v = 0 then nan else if 0 < v then pinf else ninf

/-- Multiplication: `Inf * 0` is `NaN`. -/
def mul : Float64 α → Float64 α → Float64 α
  | fin x, fin y => fin (x * y)
  | nan, _ => nan
  | _, nan => nan
  | pinf, pinf => pinf
  | pinf, ninf => ninf
  | ninf, pinf => ninf
  | ninf, ninf => pinf
  | pinf, fin y => infTimes y
  | ninf, fin y => infTimes (-y)
  | fin x, pinf => infTimes x
  | fin x, ninf => infTimes (-x)

/-- Division: a finite nonzero value over zero is an infinity, `0 / 0` and
`Inf / Inf` are `NaN`, a finite value over an infinity is zero. -/
def div : Float64 α → Float64 α → Float64 α
  | fin x, fin y => if y = 0 then infTimes x else fin (x / y)
  | nan, _ => nan
  | _, nan => nan
  | fin _, pinf => fin 0
  | fin _, ninf => fin 0
  | pinf, fin y => if 0 ≤ y then pinf else ninf
  | ninf, fin y => if 0 ≤ y then ninf else pinf
  | pinf, pinf => nan
  | pinf, ninf => nan
  | ninf, pinf => nan
  | ninf, ninf => nan

/-- Absolute value (`math.Abs`). -/
def abs : Float64 α → Float64 α
  | fin v => fin |v|
  | pinf => pinf
  | ninf => pinf
  | nan => nan

/-- The conversion `float64(i)` of an integer. -/
def ofInt (i : Int) : Float64 α := fin (i : α)

instance : Neg (Float64 α) := ⟨neg⟩
instance : Add (Float64 α) := ⟨add⟩
instance : Sub (Float64 α) := ⟨fun x y => add x (neg y)⟩
instance : Mul (Float64 α) := ⟨mul⟩
instance : Div (Float64 α) := ⟨div⟩
instance : Zero (Float64 α) := ⟨fin 0⟩

/-- Addition of `float64` values (without rounding) is a commutative monoid, so
sums of samples can be written with `∑`. -/
instance : AddCommMonoid (Float64 α) where
  add_assoc x y z := by
    cases x <;> cases y <;> cases z <;>
      first | rfl | (show fin _ = fin _; rw [add_assoc])
  zero_add x := by
    cases x <;> first | rfl | (show fin _ = fin _; rw [zero_add])
  add_zero x := by
    cases x <;> first | rfl | (show fin _ = fin _; rw [add_zero])
  add_comm x y := by
    cases x <;> cases y <;> first | rfl | (show fin _ = fin _; rw [add_comm])
  nsmul := nsmulRec

/-- The comparison `<` of `float64`: `NaN` compares with nothing, `-Inf` is below and
`+Inf` above every finite value. -/
def lt : Float64 α → Float64 α → Bool
  | fin x, fin y => decide (x < y)
  | ninf, fin _ => true
  | ninf, pinf => true
  | fin _, pinf => true
  | _, _ => false

instance : LT (Float64 α) := ⟨fun x y => lt x y = true⟩

end Float64

/-! ## go/token and go/ast -/

/-- The tokens of `go/token` that can label a literal or an operator node. -/
inductive Token where
  | INT | FLOAT | IMAG | CHAR | STRING
  | ADD | SUB | MUL | QUO | REM
  | AND | OR | XOR | SHL | SHR | AND_NOT
  | LAND | LOR | ARROW
  | EQL | LSS | GTR | NOT
  | NEQ | LEQ | GEQ | TILDE
  deriving DecidableEq, Repr

/-- The expression nodes of `go/ast`.  `Eval` tells six node types apart; every
other node type (selector, index, composite literal, ...) is `OtherExpr`. -/
inductive Expr where
  | UnaryExpr (Op : Token) (X : Expr)
  | BinaryExpr (X : Expr) (Op : Token) (Y : Expr)
  | BasicLit (Kind : Token) (Value : String)
  | ParenExpr (X : Expr)
  | Ident (Name : String)
  | CallExpr (Fun : Expr) (Args : List Expr)
  | OtherExpr
  deriving Repr

/-! ## Trees without a variable -/

/-- The function names that `Eval` recognizes. -/
def recognized (name : String) : Bool :=
  name ∈ ["log", "sin", "sen", "cos", "tan", "arcsin", "arcsen", "arccos", "arctan", "mod", "abs"]

mutual

/-- A tree without a variable: built only from numeric literals, the constant `e`,
parentheses, unary and binary operators and calls to recognized functions. -/
def noVariable : Expr → Bool
  | .UnaryExpr _ X => noVariable X
  | .BinaryExpr X _ Y => noVariable X && noVariable Y
  | .BasicLit Kind _ => Kind == Token.INT || Kind == Token.FLOAT
  | .ParenExpr X => noVariable X
  | .Ident Name => Name == "e"
  | .CallExpr (.Ident name) Args => recognized name && noVariableList Args
  | .CallExpr _ _ => false
  | .OtherExpr => false

/-- Every tree of the list is without a variable. -/
def noVariableList : List Expr → Bool
  | [] => true
  | a :: rest => noVariable a && noVariableList rest

end

/-! ## Well-formed trees -/

mutual

/-- A well-formed tree: each call node has an identifier as its callee and at least
one argument. -/
def wellFormed : Expr → Bool
  | .UnaryExpr _ X => wellFormed X
  | .BinaryExpr X _ Y => wellFormed X && wellFormed Y
  | .BasicLit _ _ => true
  | .ParenExpr X => wellFormed X
  | .Ident _ => true
  | .CallExpr (.Ident _) (arg :: rest) => wellFormed arg && wellFormedList rest
  | .CallExpr _ _ => false
  | .OtherExpr => true

/-- Every tree of the list is well-formed. -/
def wellFormedList : List Expr → Bool
  | [] => true
  | a :: rest => wellFormed a && wellFormedList rest

end

/-! ## Failures -/

/-- The two ways the program stops early: `log.Fatal(err)` in `f`, and a run-time
panic (index out of range, failed type assertion) in `Eval`. -/
inductive Failure where
  | fatal (err : String)
  | panic
  deriving DecidableEq, Repr

/-! ## The libraries the program imports -/

/-- The library functions the program calls. -/
structure GoLib (α : Type) where
  /-- The function `parser.ParseExpr`: the tree, or the error. -/
  ParseExpr : String → Except String Expr
  /-- The function `strconv.Atoi`, first result (the error is discarded by `Eval`). -/
  Atoi : String → Int
  /-- The function `strconv.ParseFloat(s, 64)`, first result. -/
  ParseFloat : String → Float64 α
  /-- The constant `math.E`. -/
  E : Float64 α
  Log : Float64 α → Float64 α
  Sin : Float64 α → Float64 α
  Cos : Float64 α → Float64 α
  Tan : Float64 α → Float64 α
  Asin : Float64 α → Float64 α
  Acos : Float64 α → Float64 α
  Atan : Float64 α → Float64 α
  Pow : Float64 α → Float64 α → Float64 α

section Evaluator

variable {α : Type} [LinearOrderedField α]

/-- The function `Log`: the log of `x` in the base `y`. -/
def Log (L : GoLib α) (x y : Float64 α) : Float64 α :=
  L.Log x / L.Log y

/-- The function `EvalBinaryExpr`, after its two calls of `Eval`: the `switch exp.Op`
applied to the values `left` and `right` of the operands. -/
def EvalBinaryExpr (L : GoLib α) (Op : Token) (left right : Float64 α) : Float64 α :=
  match Op with
  | .ADD => left + right
  | .SUB => left - right
  | .MUL => left * right
  | .QUO => left / right
  | .XOR => L.Pow left right
  | _ => Float64.fin 0

/-- The function `EvalUnaryExp`, after its call of `Eval`: the `switch exp.Op` applied
to the value `arg` of the operand. -/
def EvalUnaryExp (Op : Token) (arg : Float64 α) : Float64 α :=
  match Op with
  | .SUB => -arg
  | _ => arg

/-- The function `Eval`.  The recursive calls that `EvalUnaryExp` and `EvalBinaryExpr`
make on the operands are made here, in the same order, before their `switch`. -/
def Eval (L : GoLib α) : Expr → Float64 α → Except Failure (Float64 α)
  | .UnaryExpr Op X, n => do
      let arg ← Eval L X n
      pure (EvalUnaryExp Op arg)
  | .BinaryExpr X Op Y, n => do
      let left ← Eval L X n
      let right ← Eval L Y n
      pure (EvalBinaryExpr L Op left right)
  | .BasicLit Kind Value, _ =>
      match Kind with
      | .INT => pure (Float64.ofInt (L.Atoi Value))
      | .FLOAT => pure (L.ParseFloat Value)
      | _ => pure (Float64.fin 0)
  | .ParenExpr X, n => Eval L X n
  | .Ident Name, n => if Name = "e" then pure L.E else pure n
  | .CallExpr Fun Args, n =>
      match Fun with
      | .Ident name =>
          match Args with
          | [] => throw Failure.panic
          | arg :: rest =>
              if name = "log" then
                match rest with
                | [arg1] => do
                    let v ← Eval L arg n
                    let w ← Eval L arg1 n
                    pure (Log L v w)
                | _ => do
                    let v ← Eval L arg n
                    pure (L.Log v)
              else if name = "sin" ∨ name = "sen" then do
                let v ← Eval L arg n
                pure (L.Sin v)
              else if name = "cos" then do
                let v ← Eval L arg n
                pure (L.Cos v)
              else if name = "tan" then do
                let v ← Eval L arg n
                pure (L.Tan v)
              else if name = "arcsin" ∨ name = "arcsen" then do
                let v ← Eval L arg n
                pure (L.Asin v)
              else if name = "arccos" then do
                let v ← Eval L arg n
                pure (L.Acos v)
              else if name = "arctan" then do
                let v ← Eval L arg n
                pure (L.Atan v)
              else if name = "mod" ∨ name = "abs" then do
                let v ← Eval L arg n
                pure (Float64.abs v)
              else pure n
      | _ => throw Failure.panic
  | .OtherExpr, _ => pure (Float64.fin 0)

/-- The one-argument function that `Eval` applies for a function name, when the
name is one of the `case` labels of its `switch`. -/
def unaryFn (L : GoLib α) (name : String) : Option (Float64 α → Float64 α) :=
  if name = "log" then some L.Log
  else if name = "sin" ∨ name = "sen" then some L.Sin
  else if name = "cos" then some L.Cos
  else if name = "tan" then some L.Tan
  else if name = "arcsin" ∨ name = "arcsen" then some L.Asin
  else if name = "arccos" then some L.Acos
  else if name = "arctan" then some L.Atan
  else if name = "mod" ∨ name = "abs" then some Float64.abs
  else none

/-! ## DiscreteIntegral -/

/-- The struct `DiscreteIntegral`. -/
structure DiscreteIntegral (α : Type) where
  Y : List (Float64 α)
  X : List (Float64 α)
  Function : String
  Result : Float64 α
  Intervals : Int
  InitialX : Float64 α
  EndX : Float64 α

/-- What a `*DiscreteIntegral` can point to: the package-level variable `result`,
or an object of its own. -/
inductive Ptr where
  | result
  | heap
  deriving DecidableEq, Repr

/-- The program state: the package-level `var result DiscreteIntegral` and one
further `DiscreteIntegral` object. -/
structure State (α : Type) where
  result : DiscreteIntegral α
  heap : DiscreteIntegral α

/-- Dereference a pointer. -/
def State.get (s : State α) : Ptr → DiscreteIntegral α
  | .result => s.result
  | .heap => s.heap

/-- Store through a pointer. -/
def State.set (s : State α) : Ptr → DiscreteIntegral α → State α
  | .result, d => { s with result := d }
  | .heap, d => { s with heap := d }

/-- The method `f` (value receiver): parse `di.Function`, `log.Fatal` on an error,
otherwise evaluate the tree at `n`. -/
def f (L : GoLib α) (di : DiscreteIntegral α) (n : Float64 α) :
    Except Failure (Float64 α) :=
  match L.ParseExpr di.Function with
  | .error err => throw (Failure.fatal err)
  | .ok ast => Eval L ast n

/-- The method `Add` (pointer receiver): append `x` to `di.X` and `y` to `di.Y`. -/
def Add (di : Ptr) (x y : Float64 α) (s : State α) : State α :=
  let s1 := s.set di { s.get di with X := (s.get di).X ++ [x] }
  s1.set di { s1.get di with Y := (s1.get di).Y ++ [y] }

/-- A call `di.f(n)` made in state `s`; a failure stops the program in that state. -/
def callF (L : GoLib α) (di : Ptr) (n : Float64 α) (s : State α) :
    Except (Failure × State α) (Float64 α) :=
  match f L (s.get di) n with
  | .ok v => .ok v
  | .error e => .error (e, s)

/-- The loop `for i := 1; i <= di.Intervals-1; i++` of `Calculate`, with the
number of iterations still to run as first argument. -/
def CalculateLoop (L : GoLib α) (di : Ptr) (a coefficient : Float64 α) :
    Nat → Int → Float64 α → State α → Except (Failure × State α) (Float64 α × State α)
  | 0, _, sum, s => pure (sum, s)
  | k + 1, i, sum, s => do
      let y ← callF L di (a + (Float64.ofInt i * coefficient)) s
      let sum := sum + y
      let y1 ← callF L di (a + (Float64.ofInt i * coefficient)) s
      let s := Add Ptr.result (a + (Float64.ofInt i * coefficient)) y1 s
      CalculateLoop L di a coefficient k (i + 1) sum s

/-- The method `Calculate` (pointer receiver `di`).  It returns `r` and the final
state, or the failure and the state in which the program stopped.  The loop runs
`di.Intervals - 1` times when that is positive and not at all otherwise
(`Intervals` is a Go `int`; the subtraction cannot wrap for `Intervals > -2^63`). -/
def Calculate (L : GoLib α) (di : Ptr) (s : State α) :
    Except (Failure × State α) (Float64 α × State α) := do
  let a := (s.get di).InitialX
  let b := (s.get di).EndX
  let coefficient := (b - a) / Float64.ofInt (s.get di).Intervals
  let fa ← callF L di a s
  let startingPoint := fa / Float64.fin 2
  let fb ← callF L di b s
  let endingPoint := fb / Float64.fin 2
  let sum : Float64 α := Float64.fin 0
  let s := Add Ptr.result a (startingPoint * Float64.fin 2) s
  let (sum, s) ← CalculateLoop L di a coefficient ((s.get di).Intervals - 1).toNat 1 sum s
  let s := Add Ptr.result b (endingPoint * Float64.fin 2) s
  let r := coefficient * (startingPoint + sum + endingPoint)
  let s := s.set di { s.get di with Result := r }
  pure (r, s)

/-! ## Closed forms of one run of `Calculate` -/

/-- The sample points `a + float64(i + j) * c` for `j = 0 .. k-1`: the points
visited by `k` iterations of the loop of `Calculate` that start at index `i`. -/
def points (a c : Float64 α) (i : Int) (k : Nat) : List (Float64 α) :=
  (List.range k).map (fun j : Nat => a + (Float64.ofInt (i + (j : Int)) * c))

/-- The state after the samples `(xs, ys)` have been appended to `result`. -/
def record (xs ys : List (Float64 α)) (s : State α) : State α :=
  { s with result := { s.result with X := s.result.X ++ xs, Y := s.result.Y ++ ys } }

/-- The step `(b - a) / float64(N)` of a `DiscreteIntegral`. -/
def coefficientOf (d : DiscreteIntegral α) : Float64 α :=
  (d.EndX - d.InitialX) / Float64.ofInt d.Intervals

/-- The interior sample points `a + i * h`, `i = 1 .. N-1`, in increasing `i`. -/
def interior (d : DiscreteIntegral α) : List (Float64 α) :=
  points d.InitialX (coefficientOf d) 1 (d.Intervals - 1).toNat

/-- The value `h * (g(a)/2 + sum + g(b)/2)` for a formula that evaluates to `g`. -/
def resultOf (g : Float64 α → Float64 α) (d : DiscreteIntegral α) : Float64 α :=
  coefficientOf d *
    (g d.InitialX / Float64.fin 2 + ((interior d).map g).sum + g d.EndX / Float64.fin 2)

/-- The x-values recorded by one run. -/
def samplesX (d : DiscreteIntegral α) : List (Float64 α) :=
  d.InitialX :: (interior d ++ [d.EndX])

/-- The y-values recorded by one run. -/
def samplesY (g : Float64 α → Float64 α) (d : DiscreteIntegral α) : List (Float64 α) :=
  (g d.InitialX / Float64.fin 2 * Float64.fin 2) ::
    ((interior d).map g ++ [g d.EndX / Float64.fin 2 * Float64.fin 2])

/-- The state after one complete run on the receiver `di`. -/
def finalState (g : Float64 α → Float64 α) (di : Ptr) (s : State α) : State α :=
  let s1 := record (samplesX (s.get di)) (samplesY g (s.get di)) s
  s1.set di { s1.get di with Result := resultOf g (s.get di) }

/-- A `DiscreteIntegral` as `main` builds it: the zero value with `Function`,
`Intervals`, `InitialX` and `EndX` assigned. -/
def newIntegral (fn : String) (N : Int) (a b : Float64 α) : DiscreteIntegral α :=
  { Y := [], X := [], Function := fn, Result := Float64.fin 0, Intervals := N,
    InitialX := a, EndX := b }

/-- The program state in which `result` holds `d` and the other object is the zero
value `DiscreteIntegral{}`. -/
def stateOf (d : DiscreteIntegral α) : State α :=
  { result := d, heap := newIntegral "" 0 (Float64.fin 0) (Float64.fin 0) }

end Evaluator

/-! ## An executable library instance over ℚ

`ratLib` implements the `GoLib` record on rational numbers, so that the program
can be run on concrete formulas.

Its parser follows `go/scanner` and `go/parser` on a fragment of the expressions of
Go: names in ASCII letters, digits and `_` (keywords excluded), the number literals of
Go (decimal, binary, octal, hexadecimal, floating-point and imaginary, with `_`
between digits), parentheses, calls, and the unary and binary operators, with the
operator precedences of `go/token`.  Blanks, tabs and line ends separate tokens, and
the scanner inserts a semicolon at a line end after an operand, as in Go.  On a text
of the fragment `Ref.ParseExpr` answers as `parser.ParseExpr` does: the tree, or an
error.  On every other text it answers with an error, which `parser.ParseExpr` need
not do: selectors, indexing, composite and function literals, types, string and
character literals, comments and letters outside ASCII are not modelled, nor is the
parser's limit on the depth of nesting. -/

namespace Ref

/-- The lexical tokens of the fragment.  `SEMICOLON` is the semicolon that the
scanner inserts by itself at a line end, or at the end of the text, after a name,
a literal or `)`. -/
inductive Lexeme where
  | IDENT (lit : String)
  | INT (lit : String)
  | FLOAT (lit : String)
  | IMAG (lit : String)
  | OP (tok : Token)
  | LPAREN
  | RPAREN
  | COMMA
  | SEMICOLON
  deriving DecidableEq, Repr

/-- The keywords of Go, which the scanner does not return as identifiers.  Text with
a keyword is outside the fragment. -/
def keywords : List String :=
  ["break", "case", "chan", "const", "continue", "default", "defer", "else",
   "fallthrough", "for", "func", "go", "goto", "if", "import", "interface", "map",
   "package", "range", "return", "select", "struct", "switch", "type", "var"]

/-- Letters of identifiers (the ASCII ones; a letter outside ASCII is outside the
fragment). -/
def isLetter (c : Char) : Bool := c.isAlpha || c == '_'

/-- The function `lower` of `go/scanner`: `('a' - 'A') | ch`, the lower-case letter
when `ch` is a letter. -/
def lower (c : Char) : Char := Char.ofNat (c.toNat ||| 0x20)

/-- The function `isHex`. -/
def isHex (c : Char) : Bool := c.isDigit || (decide ('a' ≤ lower c) && decide (lower c ≤ 'f'))

/-- The method `digits`: the longest run of digits of the base and separators `_`,
and the rest of the text.  For a base up to 10 every decimal digit is taken. -/
def digits (base : Nat) (cs : List Char) : List Char × List Char :=
  let p := fun c : Char => (if base ≤ 10 then c.isDigit else isHex c) || c == '_'
  (cs.takeWhile p, cs.dropWhile p)

/-- The function `invalidSep`, as a test: a `_` of the literal `x` that does not
separate successive digits (a base prefix counts as a digit). -/
def invalidSep (x : List Char) : Bool :=
  let x1 : Char := match x with
    | '0' :: c :: _ => lower c
    | _ => ' '
  let pre : Bool := x1 == 'x' || x1 == 'o' || x1 == 'b'
  let step := fun (st : Char × Bool) (c : Char) =>
    if c == '_' then ('_', st.2 || st.1 != '0')
    else if c.isDigit || (x1 == 'x' && isHex c) then ('0', st.2)
    else ('.', st.2 || st.1 == '_')
  let st := (if pre then x.drop 2 else x).foldl step (if pre then '0' else '.', false)
  st.2 || st.1 == '_'

/-- The method `scanNumber`, on a text that starts with a decimal digit, or with `.`
and a decimal digit: the literal and the rest of the text, or the error that the
scanner reports. -/
def scanNumber (cs : List Char) : Except String (Lexeme × List Char) := do
  let dot : Bool := cs.head? == some '.'
  -- integer part
  let (pre, base, lead0, cs1) : Char × Nat × Bool × List Char :=
    match cs with
    | ['0'] => ('0', 8, true, [])
    | '0' :: c :: rest =>
        if lower c == 'x' then ('x', 16, false, rest)
        else if lower c == 'o' then ('o', 8, false, rest)
        else if lower c == 'b' then ('b', 2, false, rest)
        else ('0', 8, true, c :: rest)
    | _ => (' ', 10, false, cs)
  let (ip, cs2) := if dot then ([], cs1) else digits base cs1
  -- fractional part
  let frac : Bool := cs2.head? == some '.'
  if frac && (pre == 'o' || pre == 'b') then throw "invalid radix point"
  let (fp, cs3) := if frac then digits base cs2.tail else ([], cs2)
  if !(lead0 || (ip ++ fp).any (fun c => c != '_')) then throw "literal has no digits"
  -- exponent
  let e : Char := match cs3 with
    | c :: _ => lower c
    | [] => ' '
  let isExp : Bool := e == 'e' || e == 'p'
  if isExp && e == 'e' && pre != ' ' && pre != '0' then
    throw "'e' exponent requires decimal mantissa"
  if isExp && e == 'p' && pre != 'x' then
    throw "'p' exponent requires hexadecimal mantissa"
  let cs4 : List Char :=
    if isExp then
      match cs3.tail with
      | '+' :: r => r
      | '-' :: r => r
      | r => r
    else cs3
  let (ep, cs5) := if isExp then digits 10 cs4 else ([], cs4)
  if isExp && !(ep.any (fun c => c != '_')) then throw "exponent has no digits"
  if !isExp && pre == 'x' && frac then throw "hexadecimal mantissa requires a 'p' exponent"
  -- suffix 'i'
  let imag : Bool := cs5.head? == some 'i'
  let cs6 := if imag then cs5.tail else cs5
  let lit := cs.take (cs.length - cs6.length)
  if !imag && !frac && !isExp && base ≤ 10
      && ip.any (fun c => c != '_' && decide (48 + base ≤ c.toNat)) then
    throw "invalid digit"
  if lit.any (fun c => c == '_') && invalidSep lit then
    throw "'_' must separate successive digits"
  if imag then pure (.IMAG (String.mk lit), cs6)
  else if frac || isExp then pure (.FLOAT (String.mk lit), cs6)
  else pure (.INT (String.mk lit), cs6)

/-- The operators and delimiters of `Scan`, by the longest match (`switch2`, `switch3`,
`switch4`): the token that starts with the character `c` and the rest of the text.
The tokens of Go that no expression of the fragment contains (`++`, `--`, `=`, `:=`,
the assignment operators, `.`, `[`, `{`, `;`, `:`, quotes, comments) and the
characters that start no token give an error. -/
def scanOperator (c : Char) (cs : List Char) : Except String (Lexeme × List Char) :=
  let other : Except String (Lexeme × List Char) := .error "token outside the fragment"
  if c = '(' then .ok (.LPAREN, cs)
  else if c = ')' then .ok (.RPAREN, cs)
  else if c = ',' then .ok (.COMMA, cs)
  else if c = '~' then .ok (.OP .TILDE, cs)
  else if c = '+' then
    match cs with
    | '=' :: _ => other
    | '+' :: _ => other
    | _ => .ok (.OP .ADD, cs)
  else if c = '-' then
    match cs with
    | '=' :: _ => other
    | '-' :: _ => other
    | _ => .ok (.OP .SUB, cs)
  else if c = '*' then
    match cs with
    | '=' :: _ => other
    | _ => .ok (.OP .MUL, cs)
  else if c = '/' then
    match cs with
    | '/' :: _ => other
    | '*' :: _ => other
    | '=' :: _ => other
    | _ => .ok (.OP .QUO, cs)
  else if c = '%' then
    match cs with
    | '=' :: _ => other
    | _ => .ok (.OP .REM, cs)
  else if c = '^' then
    match cs with
    | '=' :: _ => other
    | _ => .ok (.OP .XOR, cs)
  else if c = '<' then
    match cs with
    | '-' :: r => .ok (.OP .ARROW, r)
    | '=' :: r => .ok (.OP .LEQ, r)
    | '<' :: '=' :: _ => other
    | '<' :: r => .ok (.OP .SHL, r)
    | _ => .ok (.OP .LSS, cs)
  else if c = '>' then
    match cs with
    | '=' :: r => .ok (.OP .GEQ, r)
    | '>' :: '=' :: _ => other
    | '>' :: r => .ok (.OP .SHR, r)
    | _ => .ok (.OP .GTR, cs)
  else if c = '=' then
    match cs with
    | '=' :: r => .ok (.OP .EQL, r)
    | _ => other
  else if c = '!' then
    match cs with
    | '=' :: r => .ok (.OP .NEQ, r)
    | _ => .ok (.OP .NOT, cs)
  else if c = '&' then
    match cs with
    | '^' :: '=' :: _ => other
    | '^' :: r => .ok (.OP .AND_NOT, r)
    | '=' :: _ => other
    | '&' :: r => .ok (.OP .LAND, r)
    | _ => .ok (.OP .AND, cs)
  else if c = '|' then
    match cs with
    | '=' :: _ => other
    | '|' :: r => .ok (.OP .LOR, r)
    | _ => .ok (.OP .OR, cs)
  else if c = '.' ∨ c = ';' ∨ c = ':' ∨ c = '[' ∨ c = ']' ∨ c = '{' ∨ c = '}' ∨ c = '"'
      ∨ c = '\'' ∨ c = '`' then other
  else .error "illegal character"

/-- The scanner (`Scanner.Scan`, called until the end of the text).  The first
argument bounds the number of steps; the second is the scanner's `insertSemi`: a
line end, or the end of the text, then gives a `SEMICOLON`. -/
def scan : Nat → Bool → List Char → Except String (List Lexeme)
  | 0, _, _ => .error "scan: out of steps"
  | _ + 1, insertSemi, [] => .ok (if insertSemi then [.SEMICOLON] else [])
  | k + 1, insertSemi, c :: cs =>
      if c = ' ' ∨ c = '\t' ∨ c = '\r' then scan k insertSemi cs
      else if c = '\n' then
        if insertSemi then (scan k false cs).map (fun ts => .SEMICOLON :: ts)
        else scan k false cs
      else if isLetter c then
        let w := String.mk ((c :: cs).takeWhile (fun d => isLetter d || d.isDigit))
        let rest := (c :: cs).dropWhile (fun d => isLetter d || d.isDigit)
        if w ∈ keywords then .error "keyword: outside the fragment"
        else (scan k true rest).map (fun ts => .IDENT w :: ts)
      else if c.isDigit ∨ (c = '.' ∧ cs.head?.map Char.isDigit = some true) then
        match scanNumber (c :: cs) with
        | .error err => .error err
        | .ok (t, rest) => (scan k true rest).map (fun ts => t :: ts)
      else
        match scanOperator c cs with
        | .error err => .error err
        | .ok (t, rest) => (scan k (t == .RPAREN) rest).map (fun ts => t :: ts)

/-- The method `Token.Precedence` of `go/token`; 0 is `LowestPrec`. -/
def precedence : Token → Nat
  | .LOR => 1
  | .LAND => 2
  | .EQL | .NEQ | .LSS | .LEQ | .GTR | .GEQ => 3
  | .ADD | .SUB | .OR | .XOR => 4
  | .MUL | .QUO | .REM | .SHL | .SHR | .AND | .AND_NOT => 5
  | _ => 0

mutual

/-- The parser function `parseBinaryExpr(prec1)`: a unary expression followed by
the operators of precedence at least `prec1`. -/
def parseBinaryExpr : Nat → Nat → List Lexeme → Except String (Expr × List Lexeme)
  | 0, _, _ => .error "parse: out of steps"
  | k + 1, prec1, ts => do
      let (x, rest) ← parseUnaryExpr k ts
      parseBinaryRest k prec1 x rest

/-- The loop of `parseBinaryExpr`: while the next token is a binary operator of
precedence at least `prec1`, parse its right operand at the next precedence. -/
def parseBinaryRest : Nat → Nat → Expr → List Lexeme → Except String (Expr × List Lexeme)
  | 0, _, _, _ => .error "parse: out of steps"
  | k + 1, prec1, x, .OP op :: rest =>
      if precedence op < prec1 then .ok (x, .OP op :: rest)
      else do
        let (y, rest1) ← parseBinaryExpr k (precedence op + 1) rest
        parseBinaryRest k prec1 (.BinaryExpr x op y) rest1
  | _ + 1, _, x, ts => .ok (x, ts)

/-- The parser function `parseUnaryExpr`.  A unary `*` gives a `StarExpr`, which is
an `OtherExpr` to `Eval`. -/
def parseUnaryExpr : Nat → List Lexeme → Except String (Expr × List Lexeme)
  | 0, _ => .error "parse: out of steps"
  | k + 1, .OP op :: rest =>
      if op = .ADD ∨ op = .SUB ∨ op = .NOT ∨ op = .XOR ∨ op = .AND ∨ op = .TILDE
          ∨ op = .ARROW then do
        let (x, rest1) ← parseUnaryExpr k rest
        pure (.UnaryExpr op x, rest1)
      else if op = .MUL then do
        let (_, rest1) ← parseUnaryExpr k rest
        pure (.OtherExpr, rest1)
      else .error "expected operand"
  | k + 1, ts => do
      let (x, rest) ← parseOperand k ts
      parseCalls k x rest

/-- The parser function `parseOperand`. -/
def parseOperand : Nat → List Lexeme → Except String (Expr × List Lexeme)
  | 0, _ => .error "parse: out of steps"
  | _ + 1, .IDENT name :: rest => .ok (.Ident name, rest)
  | _ + 1, .INT lit :: rest => .ok (.BasicLit .INT lit, rest)
  | _ + 1, .FLOAT lit :: rest => .ok (.BasicLit .FLOAT lit, rest)
  | _ + 1, .IMAG lit :: rest => .ok (.BasicLit .IMAG lit, rest)
  | k + 1, .LPAREN :: rest => do
      let (x, rest1) ← parseBinaryExpr k 1 rest
      match rest1 with
      | .RPAREN :: rest2 => pure (.ParenExpr x, rest2)
      | _ => throw "expected ')'"
  | _ + 1, _ => .error "expected operand"

/-- The call suffixes of `parsePrimaryExpr`. -/
def parseCalls : Nat → Expr → List Lexeme → Except String (Expr × List Lexeme)
  | 0, _, _ => .error "parse: out of steps"
  | k + 1, x, .LPAREN :: rest => do
      let (args, rest1) ← parseArgs k rest
      parseCalls k (.CallExpr x args) rest1
  | _ + 1, x, ts => .ok (x, ts)

/-- The argument list of `parseCallOrConversion`, up to and including `)`. -/
def parseArgs : Nat → List Lexeme → Except String (List Expr × List Lexeme)
  | 0, _ => .error "parse: out of steps"
  | _ + 1, .RPAREN :: rest => .ok ([], rest)
  | k + 1, ts => do
      let (x, rest) ← parseBinaryExpr k 1 ts
      match rest with
      | .COMMA :: rest1 => do
          let (xs, rest2) ← parseArgs k rest1
          pure (x :: xs, rest2)
      | .RPAREN :: rest1 => pure ([x], rest1)
      | _ => throw "expected ')'"

end

/-- The parser of `ParseExpr` on the tokens of the text: an expression, then the
semicolon that the scanner inserted at the end, if any, then the end of the text. -/
def parseTokens (ts : List Lexeme) : Except String Expr := do
  let (x, rest) ← parseBinaryExpr (4 * ts.length + 8) 1 ts
  match rest with
  | [] => pure x
  | [.SEMICOLON] => pure x
  | _ => throw "expected 'EOF'"

/-- The function `parser.ParseExpr` on the fragment. -/
def ParseExpr (src : String) : Except String Expr := do
  let ts ← scan (src.length + 1) false src.toList
  parseTokens ts

/-- The value of a string of decimal digits. -/
def digitsValue (cs : List Char) : Nat :=
  cs.foldl (fun acc c => 10 * acc + (c.toNat - 48)) 0

/-- The function `strconv.Atoi`, first result: the value of an optionally signed
string of decimal digits, clamped to the range of `int`; 0 on a syntax error. -/
def Atoi (s : String) : Int :=
  let clamp (z : Int) : Int := max (-(2 ^ 63)) (min (2 ^ 63 - 1) z)
  match s.toList with
  | [] => 0
  | c :: cs =>
      let ds := if c = '+' ∨ c = '-' then cs else c :: cs
      if ds ≠ [] ∧ ds.all Char.isDigit then
        clamp (if c = '-' then -(digitsValue ds : Int) else (digitsValue ds : Int))
      else 0

/-- The value of a decimal or hexadecimal digit. -/
def digitValue (c : Char) : Nat :=
  if c.isDigit then c.toNat - 48 else (lower c).toNat - 87

/-- The value of a string of digits of a base; the separators `_` are skipped. -/
def digitsValueIn (base : Nat) (cs : List Char) : Nat :=
  (cs.filter (fun c => c != '_')).foldl (fun acc c => base * acc + digitValue c) 0

/-- The function `strconv.ParseFloat(s, 64)`, first result, before its final rounding
to a `float64`: the exact value of an optionally signed decimal or hexadecimal
floating-point number (digits with an optional point, an optional exponent `e` or
`p`, which a hexadecimal mantissa requires, and separators `_` between digits), the
special values `inf`, `infinity` (optionally signed) and `nan` in any case of the
letters, and 0 on a syntax error. -/
def ParseFloat (s : String) : Float64 ℚ :=
  let cs := s.toList
  let neg : Bool := cs.head? == some '-'
  let body : List Char := match cs with
    | '+' :: r => r
    | '-' :: r => r
    | r => r
  if body.map lower = "inf".toList ∨ body.map lower = "infinity".toList then
    (if neg then .ninf else .pinf)
  else if cs.map lower = "nan".toList then .nan
  else
    let hex : Bool := match body with
      | '0' :: c :: _ :: _ => lower c == 'x'
      | _ => false
    let base : Nat := if hex then 16 else 10
    let isDig := fun c : Char => (if hex then isHex c else c.isDigit) || c == '_'
    let m0 := if hex then body.drop 2 else body
    let ip := m0.takeWhile isDig
    let r1 := m0.dropWhile isDig
    let sawdot : Bool := r1.head? == some '.'
    let fp := if sawdot then r1.tail.takeWhile isDig else []
    let r2 := if sawdot then r1.tail.dropWhile isDig else r1
    let sawdigits : Bool := (ip ++ fp).any (fun c => c != '_')
    let isExp : Bool := match r2 with
      | c :: _ => lower c == (if hex then 'p' else 'e')
      | [] => false
    let eneg : Bool := r2.tail.head? == some '-'
    let r3 : List Char := match r2.tail with
      | '+' :: r => r
      | '-' :: r => r
      | r => r
    let ep := r3.takeWhile (fun c => c.isDigit || c == '_')
    let r4 := r3.dropWhile (fun c => c.isDigit || c == '_')
    let expOk : Bool := r3.head?.map Char.isDigit == some true
    let ok : Bool :=
      sawdigits && (if isExp then expOk && r4.isEmpty else !hex && r2.isEmpty)
        && !(cs.any (fun c => c == '_') && invalidSep body)
    if !ok then .fin 0
    else
      let mant : ℚ := (digitsValueIn base (ip ++ fp) : ℚ)
        / (base : ℚ) ^ (fp.filter (fun c => c != '_')).length
      let scale : ℚ := if !isExp then 1 else (if hex then 2 else 10) ^ digitsValueIn 10 ep
      let v : ℚ := if eneg then mant / scale else mant * scale
      .fin (if neg then -v else v)

/-- The function `isOddInt` of package `math`. -/
def isOddInt (y : ℚ) : Bool := y.den == 1 && y.num % 2 == 1

/-- The square root of a rational square. -/
def sqrtOf (v : ℚ) : ℚ := (Nat.sqrt v.num.natAbs : ℚ) / (Nat.sqrt v.den : ℚ)

/-- A rational that is the square of a rational. -/
def isSquare (v : ℚ) : Bool := 0 ≤ v && sqrtOf v * sqrtOf v == v

/-- The function `math.Pow`, without rounding: its special cases, the exact power for
a finite nonzero base and an integer exponent, and the square root (exponents `0.5`
and `-0.5`) of a square.  A negative base with an exponent that is not an integer
gives `NaN`, as in Go.  Any other power of a positive base has no rational value in
general: the instance answers `NaN` there, which is not the value of `math.Pow`. -/
def Pow (x y : Float64 ℚ) : Float64 ℚ :=
  if y = .fin 0 ∨ x = .fin 1 then .fin 1
  else if y = .fin 1 then x
  else
    match x, y with
    | .nan, _ => .nan
    | _, .nan => .nan
    | .fin v, .pinf =>
        if v = 0 then .fin 0 else if v = -1 then .fin 1 else if |v| < 1 then .fin 0 else .pinf
    | .fin v, .ninf =>
        if v = 0 then .pinf else if v = -1 then .fin 1 else if |v| < 1 then .pinf else .fin 0
    | _, .pinf => .pinf
    | _, .ninf => .fin 0
    | .pinf, .fin w => if w < 0 then .fin 0 else .pinf
    | .ninf, .fin w => if w < 0 then .fin 0 else if isOddInt w then .ninf else .pinf
    | .fin v, .fin w =>
        if v = 0 then (if w < 0 then .pinf else .fin 0)
        else if w.den = 1 then
          (if 0 ≤ w.num then .fin (v ^ w.num.toNat) else .fin (1 / v ^ (-w.num).toNat))
        else if 0 < v ∧ (w = 1 / 2 ∨ w = -1 / 2) ∧ isSquare v then
          (if 0 < w then .fin (sqrtOf v) else .fin (1 / sqrtOf v))
        else .nan

end Ref

/-- The library instance over ℚ.  `math.E` is the `float64` nearest to e; the
transcendental functions have no exact rational values and answer `NaN`. -/
def ratLib : GoLib ℚ where
  ParseExpr := Ref.ParseExpr
  Atoi := Ref.Atoi
  ParseFloat := Ref.ParseFloat
  E := .fin (6121026514868073 / 2251799813685248)
  Log := fun _ => .nan
  Sin := fun _ => .nan
  Cos := fun _ => .nan
  Tan := fun _ => .nan
  Asin := fun _ => .nan
  Acos := fun _ => .nan
  Atan := fun _ => .nan
  Pow := Ref.Pow

/-! ## A library instance over ℝ -/

/-- The library instance over ℝ: the parser and `strconv` of `ratLib`, and package
`math` as the real functions on finite arguments, with the special cases that the
package documents (`Log(0) = -Inf`, `Log(x < 0) = NaN`, `Sin(±Inf) = NaN`,
`Asin(x) = NaN` for `|x| > 1`, `Atan(±Inf) = ±π/2`, the special cases of `Pow`).
Rounding is not modelled. -/
noncomputable def realLib : GoLib ℝ where
  ParseExpr := Ref.ParseExpr
  Atoi := Ref.Atoi
  ParseFloat := fun s =>
    match Ref.ParseFloat s with
    | .fin q => .fin (q : ℝ)
    | .pinf => .pinf
    | .ninf => .ninf
    | .nan => .nan
  E := .fin (Real.exp 1)
  Log := fun x =>
    match x with
    | .fin v => if v < 0 then .nan else if v = 0 then .ninf else .fin (Real.log v)
    | .pinf => .pinf
    | _ => .nan
  Sin := fun x =>
    match x with
    | .fin v => .fin (Real.sin v)
    | _ => .nan
  Cos := fun x =>
    match x with
    | .fin v => .fin (Real.cos v)
    | _ => .nan
  Tan := fun x =>
    match x with
    | .fin v => .fin (Real.tan v)
    | _ => .nan
  Asin := fun x =>
    match x with
    | .fin v => if v < -1 ∨ 1 < v then .nan else .fin (Real.arcsin v)
    | _ => .nan
  Acos := fun x =>
    match x with
    | .fin v => if v < -1 ∨ 1 < v then .nan else .fin (Real.arccos v)
    | _ => .nan
  Atan := fun x =>
    match x with
    | .fin v => .fin (Real.arctan v)
    | .pinf => .fin (Real.pi / 2)
    | .ninf => .fin (-(Real.pi / 2))
    | .nan => .nan
  Pow := fun x y =>
    if y = .fin 0 ∨ x = .fin 1 then .fin 1
    else if y = .fin 1 then x
    else
      match x, y with
      | .nan, _ => .nan
      | _, .nan => .nan
      | .fin v, .pinf =>
          if v = 0 then .fin 0 else if v = -1 then .fin 1 else if |v| < 1 then .fin 0 else .pinf
      | .fin v, .ninf =>
          if v = 0 then .pinf else if v = -1 then .fin 1 else if |v| < 1 then .pinf else .fin 0
      | _, .pinf => .pinf
      | _, .ninf => .fin 0
      | .pinf, .fin w => if w < 0 then .fin 0 else .pinf
      | .ninf, .fin w =>
          if w < 0 then .fin 0
          else if w = (Int.floor w : ℝ) ∧ Int.floor w % 2 = 1 then .ninf else .pinf
      | .fin v, .fin w =>
          if v = 0 then (if w < 0 then .pinf else .fin 0)
          else if 0 < v then .fin (Real.rpow v w)
          else if w = (Int.floor w : ℝ) then .fin (v ^ Int.floor w)
          else .nan

/-! ## The grouping of a chain of operators

These definitions follow the statement on precedence, not the source: the tree that
`x0 o1 x1 ... on xn` has when `*` and `/` bind tighter than `+`, `-` and `^` and
both levels group from the left.  They are compared with what the parser does. -/

/-- The five operators that `EvalBinaryExpr` evaluates, as they are written in a
formula, with their tokens. -/
def formulaOperators : List (String × Token) :=
  [("+", .ADD), ("-", .SUB), ("*", .MUL), ("/", .QUO), ("^", .XOR)]

/-- An operator of the tighter level: `*` or `/`. -/
def tighter (p : Token × String) : Bool := p.1 == .MUL || p.1 == .QUO

/-- The tokens of `x0 o1 x1 ... on xn` after the first operand: every operator with
the name that follows it, then the semicolon that the scanner inserts at the end. -/
def Ref.chainTokens (rest : List (Token × String)) : List Lexeme :=
  rest.foldr (fun p ts => .OP p.1 :: .IDENT p.2 :: ts) [.SEMICOLON]

/-- The sum read so far with the operator that follows it (none before the first `+`,
`-` or `^`), and the term being read. -/
abbrev Grouping := Option (Expr × Token) × Expr

/-- The tree of a grouping: the term being read, added to the sum read so far. -/
def Grouping.close : Grouping → Expr
  | (none, t) => t
  | (some (s, o), t) => .BinaryExpr s o t

/-- Reading `o y` after a grouping: `*` and `/` extend the term being read, from the
left; every other operator closes the term into the sum and starts a new term. -/
def Grouping.step (st : Grouping) (p : Token × String) : Grouping :=
  if p.1 = .MUL ∨ p.1 = .QUO then (st.1, .BinaryExpr st.2 p.1 (.Ident p.2))
  else (some (st.close, p.1), .Ident p.2)

/-- The tree of `x0 o1 x1 ... on xn` when `*` and `/` bind tighter than the other
operators and both levels group from the left. -/
def grouped (x0 : String) (rest : List (Token × String)) : Expr :=
  (rest.foldl Grouping.step (none, .Ident x0)).close

/-! ## The rounding of binary64

`round64 q` is the `float64` nearest to the rational `q`, ties going to the value with
an even significand (the default rounding of IEEE 754, which Go's `float64` operations
use): a multiple `m * 2^t` with `m < 2^53` and `t ≥ -1074`, or an infinity when the
nearest such multiple reaches `2^1024`. -/

/-- The nearest integer to `a / b` (for `b > 0`), ties going to the even one. -/
def divNearestEven (a b : Nat) : Nat :=
  let q := a / b
  let r := a % b
  if 2 * r < b then q
  else if b < 2 * r then q + 1
  else if q % 2 = 0 then q else q + 1

/-- The position of the leading binary digit: `floor (log2 n)` for `n ≥ 1`, found in
at most `k` halvings. -/
def log2Steps : Nat → Nat → Nat
  | 0, _ => 0
  | k + 1, n => if n < 2 then 0 else log2Steps k (n / 2) + 1

/-- The binary exponent of a positive fraction: the `e` with `2^e ≤ n/d < 2^(e+1)`. -/
def exponentOf (n d : Nat) : Int :=
  let e0 : Int := (log2Steps n n : Int) - (log2Steps d d : Int)
  let below : Bool :=
    if 0 ≤ e0 then decide (n < d * 2 ^ e0.toNat) else decide (n * 2 ^ (-e0).toNat < d)
  if below then e0 - 1 else e0

/-- The integer nearest to `(n/d) / 2^t`, ties to even. -/
def scaledNearest (n d : Nat) (t : Int) : Nat :=
  if 0 ≤ t then divNearestEven n (d * 2 ^ t.toNat) else divNearestEven (n * 2 ^ (-t).toNat) d

/-- The value `m * 2^t`. -/
def scaled (m : Nat) (t : Int) : ℚ :=
  if 0 ≤ t then (m : ℚ) * 2 ^ t.toNat else (m : ℚ) / 2 ^ (-t).toNat

/-- The binary64 rounding of a rational (round to nearest, ties to even).  The unit
in the last place is `2^t` with `t = max e (-1022) - 52`, where `e` is the binary
exponent of `|q|` (values below `2^-1022` are subnormal); the result is the multiple
of `2^t` nearest to `q`, and an infinity when that multiple reaches `2^1024`. -/
def round64 (q : ℚ) : Float64 ℚ :=
  if q = 0 then .fin 0 else
  let n := q.num.natAbs
  let d := q.den
  let t : Int := max (exponentOf n d) (-1022) - 52
  let m : Nat := scaledNearest n d t
  if 0 ≤ t ∧ 2 ^ 1024 ≤ m * 2 ^ t.toNat then (if q < 0 then .ninf else .pinf)
  else .fin (if q < 0 then -(scaled m t) else scaled m t)

/-! ## The program with rounded arithmetic

`Eval`, `f` and `Calculate` compute with exact finite values.  `Rounded` repeats
them, line by line, with every arithmetic result passed through a rounding `ρ`, which
maps the exact result of an operation on finite values to the `float64` value the
machine returns for it (an infinity on overflow).  With `ρ = Float64.fin` nothing is
rounded; `round64` is the rounding of IEEE binary64.  Negation and `math.Abs` are
exact in `float64`. -/

namespace Rounded

variable {α : Type} [LinearOrderedField α]

/-- The rounding of the exact result of an operation; special values are kept. -/
def round (ρ : α → Float64 α) : Float64 α → Float64 α
  | .fin v => ρ v
  | z => z

/-- The sum `x + y` of `float64`. -/
def add (ρ : α → Float64 α) (x y : Float64 α) : Float64 α := round ρ (x + y)

/-- The difference `x - y` of `float64`. -/
def sub (ρ : α → Float64 α) (x y : Float64 α) : Float64 α := round ρ (x - y)

/-- The product `x * y` of `float64`. -/
def mul (ρ : α → Float64 α) (x y : Float64 α) : Float64 α := round ρ (x * y)

/-- The quotient `x / y` of `float64`. -/
def div (ρ : α → Float64 α) (x y : Float64 α) : Float64 α := round ρ (x / y)

/-- The conversion `float64(i)` of an integer. -/
def ofInt (ρ : α → Float64 α) (i : Int) : Float64 α := round ρ (Float64.ofInt i)

/-- The function `Log`: the log of `x` in the base `y`. -/
def Log (ρ : α → Float64 α) (L : GoLib α) (x y : Float64 α) : Float64 α :=
  div ρ (L.Log x) (L.Log y)

/-- The function `EvalBinaryExpr`, after its two calls of `Eval`. -/
def EvalBinaryExpr (ρ : α → Float64 α) (L : GoLib α) (Op : Token) (left right : Float64 α) :
    Float64 α :=
  match Op with
  | .ADD => add ρ left right
  | .SUB => sub ρ left right
  | .MUL => mul ρ left right
  | .QUO => div ρ left right
  | .XOR => L.Pow left right
  | _ => Float64.fin 0

/-- The function `Eval`. -/
def Eval (ρ : α → Float64 α) (L : GoLib α) : Expr → Float64 α → Except Failure (Float64 α)
  | .UnaryExpr Op X, n => do
      let arg ← Eval ρ L X n
      pure (EvalUnaryExp Op arg)
  | .BinaryExpr X Op Y, n => do
      let left ← Eval ρ L X n
      let right ← Eval ρ L Y n
      pure (EvalBinaryExpr ρ L Op left right)
  | .BasicLit Kind Value, _ =>
      match Kind with
      | .INT => pure (ofInt ρ (L.Atoi Value))
      | .FLOAT => pure (L.ParseFloat Value)
      | _ => pure (Float64.fin 0)
  | .ParenExpr X, n => Eval ρ L X n
  | .Ident Name, n => if Name = "e" then pure L.E else pure n
  | .CallExpr Fun Args, n =>
      match Fun with
      | .Ident name =>
          match Args with
          | [] => throw Failure.panic
          | arg :: rest =>
              if name = "log" then
                match rest with
                | [arg1] => do
                    let v ← Eval ρ L arg n
                    let w ← Eval ρ L arg1 n
                    pure (Log ρ L v w)
                | _ => do
                    let v ← Eval ρ L arg n
                    pure (L.Log v)
              else if name = "sin" ∨ name = "sen" then do
                let v ← Eval ρ L arg n
                pure (L.Sin v)
              else if name = "cos" then do
                let v ← Eval ρ L arg n
                pure (L.Cos v)
              else if name = "tan" then do
                let v ← Eval ρ L arg n
                pure (L.Tan v)
              else if name = "arcsin" ∨ name = "arcsen" then do
                let v ← Eval ρ L arg n
                pure (L.Asin v)
              else if name = "arccos" then do
                let v ← Eval ρ L arg n
                pure (L.Acos v)
              else if name = "arctan" then do
                let v ← Eval ρ L arg n
                pure (L.Atan v)
              else if name = "mod" ∨ name = "abs" then do
                let v ← Eval ρ L arg n
                pure (Float64.abs v)
              else pure n
      | _ => throw Failure.panic
  | .OtherExpr, _ => pure (Float64.fin 0)

/-- The method `f`. -/
def f (ρ : α → Float64 α) (L : GoLib α) (di : DiscreteIntegral α) (n : Float64 α) :
    Except Failure (Float64 α) :=
  match L.ParseExpr di.Function with
  | .error err => throw (Failure.fatal err)
  | .ok ast => Eval ρ L ast n

/-- A call `di.f(n)` made in state `s`. -/
def callF (ρ : α → Float64 α) (L : GoLib α) (di : Ptr) (n : Float64 α) (s : State α) :
    Except (Failure × State α) (Float64 α) :=
  match f ρ L (s.get di) n with
  | .ok v => .ok v
  | .error e => .error (e, s)

/-- The loop of `Calculate`, with the number of iterations still to run. -/
def CalculateLoop (ρ : α → Float64 α) (L : GoLib α) (di : Ptr) (a coefficient : Float64 α) :
    Nat → Int → Float64 α → State α → Except (Failure × State α) (Float64 α × State α)
  | 0, _, sum, s => pure (sum, s)
  | k + 1, i, sum, s => do
      let y ← callF ρ L di (add ρ a (mul ρ (ofInt ρ i) coefficient)) s
      let sum := add ρ sum y
      let y1 ← callF ρ L di (add ρ a (mul ρ (ofInt ρ i) coefficient)) s
      let s := Add Ptr.result (add ρ a (mul ρ (ofInt ρ i) coefficient)) y1 s
      CalculateLoop ρ L di a coefficient k (i + 1) sum s

/-- The method `Calculate`. -/
def Calculate (ρ : α → Float64 α) (L : GoLib α) (di : Ptr) (s : State α) :
    Except (Failure × State α) (Float64 α × State α) := do
  let a := (s.get di).InitialX
  let b := (s.get di).EndX
  let coefficient := div ρ (sub ρ b a) (ofInt ρ (s.get di).Intervals)
  let fa ← callF ρ L di a s
  let startingPoint := div ρ fa (Float64.fin 2)
  let fb ← callF ρ L di b s
  let endingPoint := div ρ fb (Float64.fin 2)
  let sum : Float64 α := Float64.fin 0
  let s := Add Ptr.result a (mul ρ startingPoint (Float64.fin 2)) s
  let (sum, s) ← CalculateLoop ρ L di a coefficient ((s.get di).Intervals - 1).toNat 1 sum s
  let s := Add Ptr.result b (mul ρ endingPoint (Float64.fin 2)) s
  let r := mul ρ coefficient (add ρ (add ρ startingPoint sum) endingPoint)
  let s := s.set di { s.get di with Result := r }
  pure (r, s)

/-- The step `(b - a) / float64(N)`. -/
def coefficientOf (ρ : α → Float64 α) (d : DiscreteIntegral α) : Float64 α :=
  div ρ (sub ρ d.EndX d.InitialX) (ofInt ρ d.Intervals)

/-- The points `a + float64(i + j) * c`, `j = 0 .. k-1`. -/
def points (ρ : α → Float64 α) (a c : Float64 α) (i : Int) (k : Nat) : List (Float64 α) :=
  (List.range k).map (fun j : Nat => add ρ a (mul ρ (ofInt ρ (i + (j : Int))) c))

/-- The interior sample points, in increasing `i`. -/
def interior (ρ : α → Float64 α) (d : DiscreteIntegral α) : List (Float64 α) :=
  points ρ d.InitialX (coefficientOf ρ d) 1 (d.Intervals - 1).toNat

/-- The sum accumulated by the loop: the values of the formula at the interior
points, added to `0.0` from the left. -/
def interiorSum (ρ : α → Float64 α) (g : Float64 α → Float64 α) (d : DiscreteIntegral α) :
    Float64 α :=
  ((interior ρ d).map g).foldl (add ρ) (Float64.fin 0)

/-- The bracket `g(a)/2 + sum + g(b)/2`. -/
def bracket (ρ : α → Float64 α) (g : Float64 α → Float64 α) (d : DiscreteIntegral α) :
    Float64 α :=
  add ρ (add ρ (div ρ (g d.InitialX) (Float64.fin 2)) (interiorSum ρ g d))
    (div ρ (g d.EndX) (Float64.fin 2))

/-- The returned value `h * (g(a)/2 + sum + g(b)/2)`. -/
def resultOf (ρ : α → Float64 α) (g : Float64 α → Float64 α) (d : DiscreteIntegral α) :
    Float64 α :=
  mul ρ (coefficientOf ρ d) (bracket ρ g d)

/-- The x-values recorded by one run. -/
def samplesX (ρ : α → Float64 α) (d : DiscreteIntegral α) : List (Float64 α) :=
  d.InitialX :: (interior ρ d ++ [d.EndX])

/-- The y-values recorded by one run; the endpoints are recorded as `(g/2) * 2`. -/
def samplesY (ρ : α → Float64 α) (g : Float64 α → Float64 α) (d : DiscreteIntegral α) :
    List (Float64 α) :=
  mul ρ (div ρ (g d.InitialX) (Float64.fin 2)) (Float64.fin 2) ::
    ((interior ρ d).map g ++ [mul ρ (div ρ (g d.EndX) (Float64.fin 2)) (Float64.fin 2)])

/-- The state after one complete run on the receiver `di`. -/
def finalState (ρ : α → Float64 α) (g : Float64 α → Float64 α) (di : Ptr) (s : State α) :
    State α :=
  let s1 := record (samplesX ρ (s.get di)) (samplesY ρ g (s.get di)) s
  s1.set di { s1.get di with Result := resultOf ρ g (s.get di) }

end Rounded

/-- The library instance for `float64` arithmetic: `ratLib` with the results of
`strconv.ParseFloat` and of `math.Pow` rounded to binary64 (`math.E` is a `float64`
already).  `strconv.ParseFloat` rounds in this way; `math.Pow` returns the rounded
power when the power is itself a `float64`, and can differ from it in the last digit
otherwise. -/
def floatLib : GoLib ℚ :=
  { ratLib with
    ParseFloat := fun s => Rounded.round round64 (Ref.ParseFloat s)
    Pow := fun x y => Rounded.round round64 (Ref.Pow x y) }

/-! ## Lemmas on `float64` arithmetic -/

section Lemmas

set_option linter.unusedSectionVars false

open Float64

variable {α : Type} [LinearOrderedField α]

namespace Float64

theorem zero_def : (0 : Float64 α) = fin 0 := rfl

@[simp] theorem fin_add (x y : α) : (fin x + fin y : Float64 α) = fin (x + y) := rfl

@[simp] theorem fin_neg (x : α) : (-(fin x) : Float64 α) = fin (-x) := rfl

@[simp] theorem fin_sub (x y : α) : (fin x - fin y : Float64 α) = fin (x - y) := by
  show add (fin x) (neg (fin y)) = _
  simp [add, neg, sub_eq_add_neg]

@[simp] theorem fin_mul (x y : α) : (fin x * fin y : Float64 α) = fin (x * y) := rfl

@[simp] theorem fin_div (x y : α) :
    (fin x / fin y : Float64 α) = if y = 0 then infTimes x else fin (x / y) := rfl

end Float64

/-! ## The evaluator at a call node, and where it fails -/

/-- A call to `log` with exactly two arguments. -/
theorem Eval_call_log_two (L : GoLib α) (arg arg1 : Expr) (n : Float64 α) :
    Eval L (.CallExpr (.Ident "log") [arg, arg1]) n =
      (Eval L arg n >>= fun v => Eval L arg1 n >>= fun w => pure (Log L v w)) := by
  rw [Eval]
  rfl

theorem ite_chain_eq_match {β γ : Type} (c1 c2 c3 c4 c5 c6 c7 c8 : Prop)
    [Decidable c1] [Decidable c2] [Decidable c3] [Decidable c4] [Decidable c5] [Decidable c6]
    [Decidable c7] [Decidable c8] (k : γ → β) (d : β) (f1 f2 f3 f4 f5 f6 f7 f8 : γ) :
    (if c1 then k f1 else if c2 then k f2 else if c3 then k f3 else if c4 then k f4
      else if c5 then k f5 else if c6 then k f6 else if c7 then k f7 else if c8 then k f8
      else d) =
    (if c1 then some f1 else if c2 then some f2 else if c3 then some f3
      else if c4 then some f4 else if c5 then some f5 else if c6 then some f6
      else if c7 then some f7 else if c8 then some f8 else none).elim d k := by
  split_ifs <;> rfl

/-- Every other call with at least one argument: the recognized function applied to the value of
the first argument, or `n` for an unrecognized name. -/
theorem Eval_call_unary (L : GoLib α) (name : String) (arg : Expr) (rest : List Expr)
    (n : Float64 α) (h : name = "log" → ∀ arg1, rest ≠ [arg1]) :
    Eval L (.CallExpr (.Ident name) (arg :: rest)) n =
      (unaryFn L name).elim (pure n) (fun fn => Eval L arg n >>= fun v => pure (fn v)) := by
  have key := ite_chain_eq_match (name = "log") (name = "sin" ∨ name = "sen") (name = "cos")
    (name = "tan") (name = "arcsin" ∨ name = "arcsen") (name = "arccos") (name = "arctan")
    (name = "mod" ∨ name = "abs")
    (fun fn : Float64 α → Float64 α => Eval L arg n >>= fun v => pure (fn v)) (pure n)
    L.Log L.Sin L.Cos L.Tan L.Asin L.Acos L.Atan Float64.abs
  unfold unaryFn
  rcases rest with _ | ⟨arg1, _ | ⟨arg2, rest2⟩⟩
  · rw [Eval]
    · exact key
    · intro arg1 h1
      cases h1
  · have hne : name ≠ "log" := fun h0 => h h0 arg1 rfl
    rw [Eval]
    exact Eq.trans (Eq.trans (if_neg hne) (if_neg hne).symm) key
  · rw [Eval]
    · exact key
    · intro arg1 h1
      cases h1

/-- Induction on expression trees; at a call node the hypothesis covers every argument. -/
theorem Expr.induct {P : Expr → Prop}
    (hU : ∀ Op X, P X → P (.UnaryExpr Op X))
    (hB : ∀ X Op Y, P X → P Y → P (.BinaryExpr X Op Y))
    (hL : ∀ Kind Value, P (.BasicLit Kind Value))
    (hP : ∀ X, P X → P (.ParenExpr X))
    (hI : ∀ Name, P (.Ident Name))
    (hC : ∀ Fun Args, (∀ a ∈ Args, P a) → P (.CallExpr Fun Args))
    (hO : P .OtherExpr) : ∀ t, P t
  | .UnaryExpr Op X => hU Op X (Expr.induct hU hB hL hP hI hC hO X)
  | .BinaryExpr X Op Y =>
      hB X Op Y (Expr.induct hU hB hL hP hI hC hO X) (Expr.induct hU hB hL hP hI hC hO Y)
  | .BasicLit Kind Value => hL Kind Value
  | .ParenExpr X => hP X (Expr.induct hU hB hL hP hI hC hO X)
  | .Ident Name => hI Name
  | .CallExpr Fun Args =>
      hC Fun Args (fun a _ => Expr.induct hU hB hL hP hI hC hO a)
  | .OtherExpr => hO
termination_by t => sizeOf t
decreasing_by
  all_goals simp_wf
  all_goals first
    | omega
    | (have hlt := List.sizeOf_lt_of_mem ‹_ ∈ _›
       omega)

theorem isOk_bind_pure {β γ : Type} (e1 e2 : Except Failure β) (h : e1.isOk = e2.isOk)
    (k1 k2 : β → γ) :
    (e1 >>= fun v => pure (k1 v)).isOk = (e2 >>= fun v => pure (k2 v)).isOk := by
  cases e1 <;> cases e2 <;>
    simp_all [Except.isOk, Except.toBool, bind, Except.bind, pure, Except.pure]

theorem isOk_bind_bind_pure {β γ : Type} (e1 e2 d1 d2 : Except Failure β)
    (h : e1.isOk = e2.isOk) (h1 : d1.isOk = d2.isOk) (k1 k2 : β → β → γ) :
    (e1 >>= fun v => d1 >>= fun w => pure (k1 v w)).isOk
      = (e2 >>= fun v => d2 >>= fun w => pure (k2 v w)).isOk := by
  cases e1 <;> cases e2 <;> cases d1 <;> cases d2 <;>
    simp_all [Except.isOk, Except.toBool, bind, Except.bind, pure, Except.pure]

/-- Whether `Eval` fails on a tree does not depend on the point. -/
theorem Eval_isOk_indep (L : GoLib α) (x y : Float64 α) (t : Expr) :
    (Eval L t x).isOk = (Eval L t y).isOk := by
  induction t using Expr.induct with
  | hU Op X ih => exact isOk_bind_pure _ _ ih _ _
  | hB X Op Y ih1 ih2 => exact isOk_bind_bind_pure _ _ _ _ ih1 ih2 _ _
  | hL Kind Value => cases Kind <;> rfl
  | hP X ih => simpa [Eval] using ih
  | hI Name =>
      simp only [Eval]
      split <;> rfl
  | hC Fun Args ih =>
      cases Fun with
      | Ident name =>
          cases Args with
          | nil => simp [Eval]
          | cons arg rest =>
              have h := ih arg (List.mem_cons_self _ _)
              by_cases hlog : name = "log" ∧ ∃ arg1, rest = [arg1]
              · obtain ⟨rfl, arg1, rfl⟩ := hlog
                rw [Eval_call_log_two, Eval_call_log_two]
                exact isOk_bind_bind_pure _ _ _ _ h (ih arg1 (by simp)) _ _
              · have hl : name = "log" → ∀ arg1, rest ≠ [arg1] :=
                  fun h0 arg1 h1 => hlog ⟨h0, arg1, h1⟩
                rw [Eval_call_unary L name arg rest x hl, Eval_call_unary L name arg rest y hl]
                cases unaryFn L name with
                | none => rfl
                | some fn => exact isOk_bind_pure _ _ h _ _
      | _ => rfl
  | hO => rfl

/-- A formula that evaluates at one point evaluates at every point. -/
theorem f_total (L : GoLib α) (d : DiscreteIntegral α) (x0 v0 : Float64 α)
    (h : f L d x0 = .ok v0) : ∃ g : Float64 α → Float64 α, ∀ n, f L d n = .ok (g n) := by
  unfold f at h ⊢
  cases hp : L.ParseExpr d.Function with
  | error err => simp [hp] at h
  | ok t =>
      simp only [hp] at h ⊢
      refine ⟨fun n => match Eval L t n with | .ok v => v | .error _ => Float64.fin 0, ?_⟩
      intro n
      have hi := Eval_isOk_indep L n x0 t
      rw [h] at hi
      cases hn : Eval L t n with
      | ok v => simp only [hn]
      | error e => simp [hn, Except.isOk, Except.toBool] at hi

/-! ## One run of `Calculate` in closed form -/

theorem Add_result (x y : Float64 α) (s : State α) :
    Add Ptr.result x y s = record [x] [y] s := rfl

theorem record_record (xs ys xs1 ys1 : List (Float64 α)) (s : State α) :
    record xs1 ys1 (record xs ys s) = record (xs ++ xs1) (ys ++ ys1) s := by
  simp [record]

theorem get_record_Function (xs ys : List (Float64 α)) (s : State α) (di : Ptr) :
    ((record xs ys s).get di).Function = (s.get di).Function := by
  cases di <;> rfl

theorem get_record_fields (xs ys : List (Float64 α)) (s : State α) (di : Ptr) :
    ((record xs ys s).get di).Intervals = (s.get di).Intervals ∧
    ((record xs ys s).get di).InitialX = (s.get di).InitialX ∧
    ((record xs ys s).get di).EndX = (s.get di).EndX := by
  cases di <;> exact ⟨rfl, rfl, rfl⟩

theorem f_congr (L : GoLib α) (d1 d2 : DiscreteIntegral α) (h : d1.Function = d2.Function)
    (n : Float64 α) : f L d1 n = f L d2 n := by
  simp [f, h]

theorem points_succ (a c : Float64 α) (i : Int) (k : Nat) :
    points a c i (k + 1) = (a + (Float64.ofInt i * c)) :: points a c (i + 1) k := by
  simp [points, List.range_succ_eq_map, Function.comp_def]
  intro j _
  rw [show i + ((j : Int) + 1) = i + 1 + (j : Int) by ring]

/-- The loop, when every evaluation of the formula succeeds with value `g`. -/
theorem CalculateLoop_ok (L : GoLib α) (di : Ptr) (a c : Float64 α) (g : Float64 α → Float64 α)
    (k : Nat) : ∀ (i : Int) (sum : Float64 α) (s : State α),
    (∀ n, f L (s.get di) n = .ok (g n)) →
    CalculateLoop L di a c k i sum s =
      .ok (sum + ((points a c i k).map g).sum,
           record (points a c i k) ((points a c i k).map g) s) := by
  induction k with
  | zero =>
      intro i sum s _
      simp [CalculateLoop, points, record, pure, Except.pure]
  | succ k ih =>
      intro i sum s hf
      have hf1 : ∀ n, f L ((record [a + (Float64.ofInt i * c)]
          [g (a + (Float64.ofInt i * c))] s).get di) n = .ok (g n) := by
        intro n
        rw [f_congr L _ _ (get_record_Function _ _ s di) n]
        exact hf n
      simp only [CalculateLoop, callF, hf, bind, Except.bind, Add_result]
      rw [ih _ _ _ hf1, points_succ, record_record]
      simp [add_assoc]

/-- One run of `Calculate`, when every evaluation of the formula succeeds with
value `g`: the returned value and the final state. -/
theorem Calculate_ok (L : GoLib α) (di : Ptr) (s : State α) (g : Float64 α → Float64 α)
    (hf : ∀ n, f L (s.get di) n = .ok (g n)) :
    Calculate L di s = .ok (resultOf g (s.get di), finalState g di s) := by
  have hf1 : ∀ xs ys n, f L ((record xs ys s).get di) n = .ok (g n) := by
    intro xs ys n
    rw [f_congr L _ _ (get_record_Function xs ys s di) n]
    exact hf n
  simp only [Calculate, callF, hf, bind, Except.bind, Add_result, pure, Except.pure]
  rw [(get_record_fields _ _ s di).1, CalculateLoop_ok L di _ _ g _ _ _ _ (hf1 _ _)]
  simp only [record_record, zero_add, ← zero_def, resultOf, finalState, samplesX, samplesY,
    interior, coefficientOf, List.singleton_append, List.cons_append, List.append_assoc]
  rfl

/-! ## Sums of samples -/

theorem sum_points (g : Float64 α → Float64 α) (a c : Float64 α) (i : Int) (k : Nat) :
    ((points a c i k).map g).sum =
      ∑ j ∈ Finset.range k, g (a + (Float64.ofInt (i + (j : Int)) * c)) := by
  induction k with
  | zero => simp [points]
  | succ k ih =>
      rw [Finset.sum_range_succ, ← ih]
      simp [points, List.range_succ]

theorem sum_interior (g : Float64 α → Float64 α) (a c : Float64 α) (N : Int) :
    ((points a c 1 (N - 1).toNat).map g).sum =
      ∑ i ∈ Finset.Icc (1 : Int) (N - 1), g (a + (Float64.ofInt i * c)) := by
  rw [sum_points, Int.Icc_eq_finset_map, Finset.sum_map]
  simp

theorem f_of_parse (L : GoLib α) (d : DiscreteIntegral α) (t : Expr)
    (h : L.ParseExpr d.Function = .ok t) (n : Float64 α) : f L d n = Eval L t n := by
  simp [f, h]

theorem sum_fin {ι : Type} (t : Finset ι) (φ : ι → α) :
    ∑ j ∈ t, (fin (φ j) : Float64 α) = fin (∑ j ∈ t, φ j) :=
  (map_sum (⟨⟨fin, rfl⟩, fun _ _ => rfl⟩ : α →+ Float64 α) φ t).symm

/-- The value returned on a finite interval when the formula evaluates to `fin (φ x)` at every finite `x`. -/
theorem resultOf_fin (g : Float64 α → Float64 α) (φ : α → α) (hg : ∀ x, g (fin x) = fin (φ x))
    (d : DiscreteIntegral α) (a b : α) (N : Int) (ha : d.InitialX = fin a) (hb : d.EndX = fin b)
    (hN : d.Intervals = N) (hN0 : N ≠ 0) :
    resultOf g d = fin ((b - a) / N *
      (φ a / 2 + ∑ j ∈ Finset.range (N - 1).toNat, φ (a + ((1 : α) + j) * ((b - a) / N)) + φ b / 2)) := by
  have hN' : (N : α) ≠ 0 := Int.cast_ne_zero.mpr hN0
  simp only [resultOf, interior, coefficientOf, sum_points, ha, hb, hN, ofInt, fin_sub, fin_div, hN',
    if_false, fin_mul, fin_add, hg, sum_fin]
  simp

theorem sum_linear (a h : α) (k : Nat) :
    ∑ j ∈ Finset.range k, (a + ((1 : α) + j) * h) = k * a + h * (k * (k + 1) / 2) := by
  induction k with
  | zero => simp
  | succ k ih =>
      rw [Finset.sum_range_succ, ih]
      push_cast
      ring

theorem cast_toNat_pred (N : Int) (hN1 : 1 ≤ N) : (((N - 1).toNat : Nat) : α) = (N : α) - 1 := by
  have h : (((N - 1).toNat : Nat) : Int) = N - 1 := Int.toNat_of_nonneg (by omega)
  have h2 : ((((N - 1).toNat : Nat) : Int) : α) = ((N - 1 : Int) : α) := by rw [h]
  simpa using h2

theorem sum_antisymmetric (F : Nat → α) (k : Nat) (hF : ∀ j, j < k → F (k - 1 - j) = -F j) :
    ∑ j ∈ Finset.range k, F j = 0 := by
  have h1 : ∑ j ∈ Finset.range k, F (k - 1 - j) = ∑ j ∈ Finset.range k, F j :=
    Finset.sum_range_reflect F k
  have h2 : ∑ j ∈ Finset.range k, F (k - 1 - j) = -∑ j ∈ Finset.range k, F j := by
    rw [← Finset.sum_neg_distrib]
    exact Finset.sum_congr rfl (fun j hj => hF j (Finset.mem_range.mp hj))
  linarith

theorem div_mul_cancel_pos (z : Float64 α) (c : α) (hc : 0 < c) :
    z / fin c * fin c = z := by
  have hc0 : c ≠ 0 := ne_of_gt hc
  cases z with
  | fin v =>
      rw [fin_div, if_neg hc0, fin_mul, div_mul_cancel₀ _ hc0]
  | pinf =>
      show mul (div pinf (fin c)) (fin c) = pinf
      simp [div, mul, infTimes, le_of_lt hc, hc0, hc]
  | ninf =>
      show mul (div ninf (fin c)) (fin c) = ninf
      simp [div, mul, infTimes, le_of_lt hc, hc0, not_lt.mpr (le_of_lt hc)]
  | nan => rfl

/-- A run that returns has evaluated the formula at `InitialX`. -/
theorem f_ok_of_Calculate_ok (L : GoLib α) (di : Ptr) (s : State α)
    (p : Float64 α × State α) (h : Calculate L di s = .ok p) :
    ∃ v, f L (s.get di) (s.get di).InitialX = .ok v := by
  cases hf : f L (s.get di) (s.get di).InitialX with
  | ok v => exact ⟨v, rfl⟩
  | error e => simp [Calculate, callF, hf, bind, Except.bind] at h

/-- A run that returns is the run described by `finalState`. -/
theorem Calculate_ok_inv (L : GoLib α) (di : Ptr) (s : State α)
    (p : Float64 α × State α) (h : Calculate L di s = .ok p) :
    ∃ g : Float64 α → Float64 α, (∀ n, f L (s.get di) n = .ok (g n)) ∧
      p = (resultOf g (s.get di), finalState g di s) := by
  obtain ⟨v, hv⟩ := f_ok_of_Calculate_ok L di s p h
  obtain ⟨g, hg⟩ := f_total L _ _ _ hv
  refine ⟨g, hg, ?_⟩
  rw [Calculate_ok L di s g hg] at h
  exact (Except.ok.inj h).symm

theorem finalState_result_X (g : Float64 α → Float64 α) (di : Ptr) (s : State α) :
    (finalState g di s).result.X = s.result.X ++ samplesX (s.get di) := by
  cases di <;> rfl

theorem finalState_result_Y (g : Float64 α → Float64 α) (di : Ptr) (s : State α) :
    (finalState g di s).result.Y = s.result.Y ++ samplesY g (s.get di) := by
  cases di <;> rfl

theorem length_points (a c : Float64 α) (i : Int) (k : Nat) : (points a c i k).length = k := by
  simp [points]

theorem mem_noVariableList (Args : List Expr) (h : noVariableList Args = true) :
    ∀ a ∈ Args, noVariable a = true := by
  induction Args with
  | nil => simp
  | cons b rest ih =>
      simp only [noVariableList, Bool.and_eq_true] at h
      intro a ha
      rcases List.mem_cons.mp ha with rfl | h1
      · exact h.1
      · exact ih h.2 a h1

theorem unaryFn_of_recognized (L : GoLib α) (name : String) (h : recognized name = true) :
    ∃ fn, unaryFn L name = some fn := by
  simp only [recognized, List.mem_cons, decide_eq_true_eq, List.mem_singleton, List.not_mem_nil,
    or_false] at h
  rcases h with rfl | rfl | rfl | rfl | rfl | rfl | rfl | rfl | rfl | rfl | rfl
  all_goals exact Option.isSome_iff_exists.mp (by simp [unaryFn])

/-! ## The library instance on the formulas used below -/

theorem ratLib_atoi_one : ratLib.Atoi "1" = 1 := by decide

theorem ratLib_atoi_two : ratLib.Atoi "2" = 2 := by decide

theorem ratLib_pow_two (v : ℚ) :
    ratLib.Pow (Float64.fin v) (Float64.fin 2) = Float64.fin (v ^ 2) := by
  simp only [ratLib, Ref.Pow]
  by_cases h1 : v = 1
  · simp [h1]
  · by_cases h0 : v = 0
    · simp [h0]
    · simp [h1, h0]

theorem ratLib_f_identity (N : Int) (a b n : Float64 ℚ) :
    f ratLib (newIntegral "x" N a b) n = .ok n := by
  rw [f_of_parse ratLib (newIntegral "x" N a b) (Expr.Ident "x") rfl]
  simp [Eval, pure, Except.pure]

theorem ratLib_f_reciprocal (N : Int) (a b n : Float64 ℚ) :
    f ratLib (newIntegral "1/x" N a b) n = .ok (Float64.fin 1 / n) := by
  rw [f_of_parse ratLib (newIntegral "1/x" N a b)
    (Expr.BinaryExpr (Expr.BasicLit Token.INT "1") Token.QUO (Expr.Ident "x")) rfl]
  simp [Eval, EvalBinaryExpr, pure, Except.pure, bind, Except.bind, ofInt, ratLib_atoi_one]

/-! ## Further lemmas on the evaluator, the parser instance and the samples -/

theorem Eval_BinaryExpr_ok (L : GoLib α) (X Y : Expr) (Op : Token) (x l r : Float64 α)
    (hl : Eval L X x = .ok l) (hr : Eval L Y x = .ok r) :
    Eval L (Expr.BinaryExpr X Op Y) x = .ok (EvalBinaryExpr L Op l r) := by
  simp [Eval, hl, hr, bind, Except.bind, pure, Except.pure]

theorem ratLib_pow_nat (v : ℚ) (k : Nat) :
    ratLib.Pow (Float64.fin v) (Float64.fin (k : ℚ)) = Float64.fin (v ^ k) := by
  simp only [ratLib, Ref.Pow]
  by_cases hk : k = 0
  · simp [hk]
  · by_cases h1 : v = 1
    · simp [h1]
    · by_cases hk1 : k = 1
      · simp [hk1, h1]
      · by_cases h0 : v = 0
        · simp [h0, hk, hk1]
        · simp [hk, h1, hk1, h0]

theorem mem_wellFormedList (Args : List Expr) (h : wellFormedList Args = true) :
    ∀ a ∈ Args, wellFormed a = true := by
  induction Args with
  | nil => simp
  | cons b rest ih =>
      simp only [wellFormedList, Bool.and_eq_true] at h
      intro a ha
      rcases List.mem_cons.mp ha with rfl | h1
      · exact h.1
      · exact ih h.2 a h1

theorem Eval_ok_of_wellFormed (L : GoLib α) (t : Expr) (x : Float64 α)
    (h : wellFormed t = true) : ∃ v, Eval L t x = .ok v := by
  induction t using Expr.induct with
  | hU Op X ih =>
      simp only [wellFormed] at h
      obtain ⟨v, hv⟩ := ih h
      exact ⟨_, by simp only [Eval, hv]; rfl⟩
  | hB X Op Y ih1 ih2 =>
      simp only [wellFormed, Bool.and_eq_true] at h
      obtain ⟨l, hl⟩ := ih1 h.1
      obtain ⟨r, hr⟩ := ih2 h.2
      exact ⟨_, by simp only [Eval, hl, hr]; rfl⟩
  | hL Kind Value => cases Kind <;> exact ⟨_, rfl⟩
  | hP X ih =>
      simp only [wellFormed] at h
      obtain ⟨v, hv⟩ := ih h
      exact ⟨v, by simp only [Eval, hv]⟩
  | hI Name =>
      simp only [Eval]
      split <;> exact ⟨_, rfl⟩
  | hC Fun Args ih =>
      cases Fun with
      | Ident name =>
          cases Args with
          | nil => simp [wellFormed] at h
          | cons arg rest =>
              simp only [wellFormed, Bool.and_eq_true] at h
              obtain ⟨v, hv⟩ := ih arg (List.mem_cons_self _ _) h.1
              by_cases hlog : name = "log" ∧ ∃ arg1, rest = [arg1]
              · obtain ⟨rfl, arg1, rfl⟩ := hlog
                obtain ⟨w, hw⟩ := ih arg1 (by simp)
                  (mem_wellFormedList _ h.2 arg1 (by simp))
                exact ⟨_, by rw [Eval_call_log_two, hv, hw]; rfl⟩
              · have hl : name = "log" → ∀ arg1, rest ≠ [arg1] :=
                  fun h0 arg1 h1 => hlog ⟨h0, arg1, h1⟩
                rw [Eval_call_unary L name arg rest x hl, hv]
                cases unaryFn L name with
                | none => exact ⟨_, rfl⟩
                | some fn => exact ⟨_, rfl⟩
      | _ => simp [wellFormed] at h
  | hO => exact ⟨_, rfl⟩

theorem log_eight_div_log_two : Real.log 8 / Real.log 2 = 3 := by
  have h2 : Real.log 2 ≠ 0 := ne_of_gt (Real.log_pos (by norm_num))
  have h8 : Real.log 8 = 3 * Real.log 2 := by
    rw [show (8 : ℝ) = 2 ^ 3 by norm_num, Real.log_pow]
    norm_num
  rw [h8, mul_div_assoc, div_self h2, mul_one]

theorem fin_lt_fin (x y : α) : (fin x < fin y) ↔ x < y := by
  show (lt (fin x) (fin y) = true) ↔ x < y
  simp [lt]

theorem ratLib_f_sum_product (N : Int) (a b n : Float64 ℚ) :
    f ratLib (newIntegral "2 + 3 * 4" N a b) n = .ok (fin 14) := by
  rw [f_of_parse ratLib (newIntegral "2 + 3 * 4" N a b)
    (Expr.BinaryExpr (Expr.BasicLit Token.INT "2") Token.ADD
      (Expr.BinaryExpr (Expr.BasicLit Token.INT "3") Token.MUL (Expr.BasicLit Token.INT "4")))
    rfl]
  simp [Eval, EvalBinaryExpr, pure, Except.pure, bind, Except.bind, ofInt, ratLib, Ref.Atoi,
    Ref.digitsValue]
  norm_num

theorem ratLib_f_one_plus_x_pow_two (N : Int) (a b : Float64 ℚ) (v : ℚ) :
    f ratLib (newIntegral "1 + x^2" N a b) (fin v) = .ok (fin ((1 + v) ^ 2)) := by
  rw [f_of_parse ratLib (newIntegral "1 + x^2" N a b)
    (Expr.BinaryExpr (Expr.BinaryExpr (Expr.BasicLit Token.INT "1") Token.ADD (Expr.Ident "x"))
      Token.XOR (Expr.BasicLit Token.INT "2")) rfl]
  simp [Eval, EvalBinaryExpr, pure, Except.pure, bind, Except.bind, ofInt, ratLib_atoi_one,
    ratLib_atoi_two, ratLib_pow_two]

theorem ratLib_f_one_plus_paren (N : Int) (a b : Float64 ℚ) (v : ℚ) :
    f ratLib (newIntegral "1 + (x^2)" N a b) (fin v) = .ok (fin (1 + v * v)) := by
  rw [f_of_parse ratLib (newIntegral "1 + (x^2)" N a b)
    (Expr.BinaryExpr (Expr.BasicLit Token.INT "1") Token.ADD
      (Expr.ParenExpr (Expr.BinaryExpr (Expr.Ident "x") Token.XOR (Expr.BasicLit Token.INT "2"))))
    rfl]
  simp [Eval, EvalBinaryExpr, pure, Except.pure, bind, Except.bind, ofInt, ratLib_atoi_one,
    ratLib_atoi_two, ratLib_pow_two, pow_two]

theorem half_mul_two (z : Float64 α) : z / fin 2 * fin 2 = z :=
  div_mul_cancel_pos z 2 (by norm_num)

theorem samplesY_eq_map (g : Float64 α → Float64 α) (d : DiscreteIntegral α) :
    samplesY g d = (samplesX d).map g := by
  simp [samplesY, samplesX, half_mul_two]

theorem finalState_get (g : Float64 α → Float64 α) (di : Ptr) (s : State α) :
    ((finalState g di s).get di).Function = (s.get di).Function ∧
    ((finalState g di s).get di).Intervals = (s.get di).Intervals ∧
    ((finalState g di s).get di).InitialX = (s.get di).InitialX ∧
    ((finalState g di s).get di).EndX = (s.get di).EndX := by
  cases di <;> exact ⟨rfl, rfl, rfl, rfl⟩

theorem closed_form_congr (g : Float64 α → Float64 α) (d1 d2 : DiscreteIntegral α)
    (hN : d1.Intervals = d2.Intervals) (ha : d1.InitialX = d2.InitialX)
    (hb : d1.EndX = d2.EndX) :
    resultOf g d1 = resultOf g d2 ∧ samplesX d1 = samplesX d2 ∧
      samplesY g d1 = samplesY g d2 := by
  simp [resultOf, samplesX, samplesY, interior, coefficientOf, hN, ha, hb]

/-- On a finite interval the recorded x-values are `a + j * h` for `j = 0 .. N`. -/
theorem samplesX_fin (d : DiscreteIntegral α) (a b : α) (N : Int)
    (ha : d.InitialX = fin a) (hb : d.EndX = fin b) (hN : d.Intervals = N) (hN1 : 1 ≤ N) :
    samplesX d = (List.range ((N - 1).toNat + 2)).map
      (fun j : Nat => fin (a + (j : α) * ((b - a) / N))) := by
  have hN' : (N : α) ≠ 0 := Int.cast_ne_zero.mpr (by omega)
  have hk : (((N - 1).toNat : Nat) : α) = (N : α) - 1 := cast_toNat_pred N hN1
  rw [List.range_succ, List.range_succ_eq_map]
  simp only [samplesX, interior, points, coefficientOf, ha, hb, hN, ofInt, fin_sub, fin_div, hN',
    if_false, fin_mul, fin_add, List.map_append, List.map_cons, List.map_map, List.map_nil,
    Function.comp_def, Nat.cast_zero, zero_mul, add_zero, Nat.cast_succ, Int.cast_add,
    Int.cast_one, Int.cast_natCast]
  congr 1
  congr 1
  · apply List.map_congr_left
    intro j _
    congr 1
    ring
  · congr 2
    rw [hk]
    field_simp

/-! ## Lemmas on the rounded program -/

theorem rounded_f_congr (ρ : α → Float64 α) (L : GoLib α) (d1 d2 : DiscreteIntegral α)
    (h : d1.Function = d2.Function) (n : Float64 α) :
    Rounded.f ρ L d1 n = Rounded.f ρ L d2 n := by
  simp [Rounded.f, h]

theorem rounded_points_succ (ρ : α → Float64 α) (a c : Float64 α) (i : Int) (k : Nat) :
    Rounded.points ρ a c i (k + 1)
      = Rounded.add ρ a (Rounded.mul ρ (Rounded.ofInt ρ i) c) :: Rounded.points ρ a c (i + 1) k := by
  simp [Rounded.points, List.range_succ_eq_map, Function.comp_def]
  intro j _
  rw [show i + ((j : Int) + 1) = i + 1 + (j : Int) by ring]

/-- The rounded loop, when every evaluation of the formula succeeds with value `g`. -/
theorem rounded_CalculateLoop_ok (ρ : α → Float64 α) (L : GoLib α) (di : Ptr)
    (a c : Float64 α) (g : Float64 α → Float64 α) (k : Nat) :
    ∀ (i : Int) (sum : Float64 α) (s : State α),
    (∀ n, Rounded.f ρ L (s.get di) n = .ok (g n)) →
    Rounded.CalculateLoop ρ L di a c k i sum s =
      .ok (((Rounded.points ρ a c i k).map g).foldl (Rounded.add ρ) sum,
           record (Rounded.points ρ a c i k) ((Rounded.points ρ a c i k).map g) s) := by
  induction k with
  | zero =>
      intro i sum s _
      simp [Rounded.CalculateLoop, Rounded.points, record, pure, Except.pure]
  | succ k ih =>
      intro i sum s hf
      have hf1 : ∀ n, Rounded.f ρ L ((record
          [Rounded.add ρ a (Rounded.mul ρ (Rounded.ofInt ρ i) c)]
          [g (Rounded.add ρ a (Rounded.mul ρ (Rounded.ofInt ρ i) c))] s).get di) n
            = .ok (g n) := by
        intro n
        rw [rounded_f_congr ρ L _ _ (get_record_Function _ _ s di) n]
        exact hf n
      simp only [Rounded.CalculateLoop, Rounded.callF, hf, bind, Except.bind, Add_result]
      rw [ih _ _ _ hf1, rounded_points_succ, record_record]
      simp

/-- One run of the rounded `Calculate`, when every evaluation of the formula succeeds
with value `g`: the returned value and the final state. -/
theorem rounded_Calculate_ok (ρ : α → Float64 α) (L : GoLib α) (di : Ptr) (s : State α)
    (g : Float64 α → Float64 α) (hf : ∀ n, Rounded.f ρ L (s.get di) n = .ok (g n)) :
    Rounded.Calculate ρ L di s
      = .ok (Rounded.resultOf ρ g (s.get di), Rounded.finalState ρ g di s) := by
  have hf1 : ∀ xs ys n, Rounded.f ρ L ((record xs ys s).get di) n = .ok (g n) := by
    intro xs ys n
    rw [rounded_f_congr ρ L _ _ (get_record_Function xs ys s di) n]
    exact hf n
  simp only [Rounded.Calculate, Rounded.callF, hf, bind, Except.bind, Add_result, pure,
    Except.pure]
  rw [(get_record_fields _ _ s di).1, rounded_CalculateLoop_ok ρ L di _ _ g _ _ _ _ (hf1 _ _)]
  simp only [record_record, Rounded.resultOf, Rounded.bracket, Rounded.interiorSum,
    Rounded.finalState, Rounded.samplesX, Rounded.samplesY, Rounded.interior,
    Rounded.coefficientOf, List.singleton_append, List.cons_append, List.append_assoc]
  rfl

theorem rounded_f_of_parse (ρ : α → Float64 α) (L : GoLib α)
    (d : DiscreteIntegral α) (t : Expr)
    (h : L.ParseExpr d.Function = .ok t) (n : Float64 α) :
    Rounded.f ρ L d n = Rounded.Eval ρ L t n := by
  simp [Rounded.f, h]

theorem round_fin_id (z : Float64 α) : Rounded.round Float64.fin z = z := by
  cases z <;> rfl

theorem rounded_finalState_result_X (ρ : α → Float64 α) (g : Float64 α → Float64 α) (di : Ptr)
    (s : State α) :
    (Rounded.finalState ρ g di s).result.X = s.result.X ++ Rounded.samplesX ρ (s.get di) := by
  cases di <;> rfl

theorem rounded_finalState_result_Y (ρ : α → Float64 α) (g : Float64 α → Float64 α) (di : Ptr)
    (s : State α) :
    (Rounded.finalState ρ g di s).result.Y = s.result.Y ++ Rounded.samplesY ρ g (s.get di) := by
  cases di <;> rfl

/-- Halving and doubling give the value back when it is special, or finite with a
half that the rounding keeps. -/
theorem rounded_half_mul_two (ρ : α → Float64 α) (z : Float64 α)
    (h : ∀ v, z = fin v → ρ (v / 2) = fin (v / 2) ∧ ρ v = fin v) :
    Rounded.mul ρ (Rounded.div ρ z (fin 2)) (fin 2) = z := by
  cases z with
  | fin v =>
      obtain ⟨h1, h2⟩ := h v rfl
      have h3 : v / 2 * 2 = v := by field_simp
      simp [Rounded.mul, Rounded.div, Rounded.round, fin_div, fin_mul, h1, h2, h3]
  | pinf =>
      have h1 : (pinf : Float64 α) / fin 2 = pinf := by
        show Float64.div pinf (fin 2) = pinf
        simp [Float64.div]
      have h2 : (pinf : Float64 α) * fin 2 = pinf := by
        show Float64.mul pinf (fin 2) = pinf
        simp [Float64.mul, infTimes]
      simp [Rounded.mul, Rounded.div, Rounded.round, h1, h2]
  | ninf =>
      have h1 : (ninf : Float64 α) / fin 2 = ninf := by
        show Float64.div ninf (fin 2) = ninf
        simp [Float64.div]
      have h2 : (ninf : Float64 α) * fin 2 = ninf := by
        show Float64.mul ninf (fin 2) = ninf
        simp [Float64.mul, infTimes]
      simp [Rounded.mul, Rounded.div, Rounded.round, h1, h2]
  | nan => rfl


theorem rounded_Eval_call_log_two (ρ : α → Float64 α) (L : GoLib α) (arg arg1 : Expr)
    (n : Float64 α) :
    Rounded.Eval ρ L (.CallExpr (.Ident "log") [arg, arg1]) n =
      (Rounded.Eval ρ L arg n >>= fun v => Rounded.Eval ρ L arg1 n >>= fun w =>
        pure (Rounded.Log ρ L v w)) := by
  rw [Rounded.Eval]
  rfl

theorem rounded_Eval_call_unary (ρ : α → Float64 α) (L : GoLib α) (name : String) (arg : Expr)
    (rest : List Expr) (n : Float64 α) (h : name = "log" → ∀ arg1, rest ≠ [arg1]) :
    Rounded.Eval ρ L (.CallExpr (.Ident name) (arg :: rest)) n =
      (unaryFn L name).elim (pure n)
        (fun fn => Rounded.Eval ρ L arg n >>= fun v => pure (fn v)) := by
  have key := ite_chain_eq_match (name = "log") (name = "sin" ∨ name = "sen") (name = "cos")
    (name = "tan") (name = "arcsin" ∨ name = "arcsen") (name = "arccos") (name = "arctan")
    (name = "mod" ∨ name = "abs")
    (fun fn : Float64 α → Float64 α => Rounded.Eval ρ L arg n >>= fun v => pure (fn v)) (pure n)
    L.Log L.Sin L.Cos L.Tan L.Asin L.Acos L.Atan Float64.abs
  unfold unaryFn
  rcases rest with _ | ⟨arg1, _ | ⟨arg2, rest2⟩⟩
  · rw [Rounded.Eval]
    · exact key
    · intro arg1 h1
      cases h1
  · have hne : name ≠ "log" := fun h0 => h h0 arg1 rfl
    rw [Rounded.Eval]
    exact Eq.trans (Eq.trans (if_neg hne) (if_neg hne).symm) key
  · rw [Rounded.Eval]
    · exact key
    · intro arg1 h1
      cases h1

theorem rounded_Log_exact (L : GoLib α) (x y : Float64 α) :
    Rounded.Log Float64.fin L x y = FunLabs.Log L x y := by
  simp [Rounded.Log, FunLabs.Log, Rounded.div, round_fin_id]

/-- With the identity for rounding, `Rounded.Eval` is `Eval`. -/
theorem rounded_Eval_exact (L : GoLib α) (t : Expr) (n : Float64 α) :
    Rounded.Eval Float64.fin L t n = FunLabs.Eval L t n := by
  induction t using Expr.induct generalizing n with
  | hU Op X ih => simp only [Rounded.Eval, FunLabs.Eval, ih]
  | hB X Op Y ihX ihY =>
      simp only [Rounded.Eval, FunLabs.Eval, ihX, ihY]
      cases Op <;>
        simp [Rounded.EvalBinaryExpr, FunLabs.EvalBinaryExpr, Rounded.add, Rounded.sub,
          Rounded.mul, Rounded.div, round_fin_id]
  | hL Kind Value =>
      cases Kind <;> simp [Rounded.Eval, FunLabs.Eval, Rounded.ofInt, round_fin_id]
  | hP X ih => simp only [Rounded.Eval, FunLabs.Eval, ih]
  | hI Name => simp only [Rounded.Eval, FunLabs.Eval]
  | hC Fun Args ih =>
      cases Fun with
      | Ident name =>
          rcases Args with _ | ⟨arg, rest⟩
          · simp only [Rounded.Eval, FunLabs.Eval]
          · by_cases h : name = "log" ∧ ∃ arg1, rest = [arg1]
            · obtain ⟨h1, arg1, h2⟩ := h
              subst h1 h2
              rw [rounded_Eval_call_log_two, FunLabs.Eval_call_log_two,
                ih arg (by simp), ih arg1 (by simp)]
              simp only [rounded_Log_exact]
            · have h3 : name = "log" → ∀ arg1, rest ≠ [arg1] :=
                fun h1 arg1 h2 => h ⟨h1, arg1, h2⟩
              rw [rounded_Eval_call_unary _ _ _ _ _ _ h3, FunLabs.Eval_call_unary _ _ _ _ _ h3,
                ih arg (by simp)]
      | _ => simp only [Rounded.Eval, FunLabs.Eval]
  | hO => simp only [Rounded.Eval, FunLabs.Eval]

theorem rounded_f_exact (L : GoLib α) (d : DiscreteIntegral α) (n : Float64 α) :
    Rounded.f Float64.fin L d n = FunLabs.f L d n := by
  simp only [Rounded.f, FunLabs.f, rounded_Eval_exact]

theorem rounded_callF_exact (L : GoLib α) (di : Ptr) (n : Float64 α) (s : State α) :
    Rounded.callF Float64.fin L di n s = FunLabs.callF L di n s := by
  simp only [Rounded.callF, FunLabs.callF, rounded_f_exact]

theorem rounded_CalculateLoop_exact (L : GoLib α) (di : Ptr) (a c : Float64 α) (k : Nat) :
    ∀ (i : Int) (sum : Float64 α) (s : State α),
    Rounded.CalculateLoop Float64.fin L di a c k i sum s
      = FunLabs.CalculateLoop L di a c k i sum s := by
  induction k with
  | zero => intro i sum s; rfl
  | succ k ih =>
      intro i sum s
      simp only [Rounded.CalculateLoop, FunLabs.CalculateLoop, rounded_callF_exact, Rounded.add,
        Rounded.mul, Rounded.ofInt, round_fin_id, ih]

/-- With the identity for rounding, the rounded program is the exact one. -/
theorem rounded_Calculate_exact (L : GoLib α) (di : Ptr) (s : State α) :
    Rounded.Calculate Float64.fin L di s = FunLabs.Calculate L di s := by
  simp only [Rounded.Calculate, FunLabs.Calculate, rounded_callF_exact, Rounded.add,
    Rounded.mul, Rounded.div, Rounded.sub, Rounded.ofInt, round_fin_id,
    rounded_CalculateLoop_exact]

theorem log2Steps_le (k : Nat) : ∀ n, 1 ≤ n → 2 ^ log2Steps k n ≤ n := by
  induction k with
  | zero => intro n hn; simpa [log2Steps] using hn
  | succ k ih =>
      intro n hn
      unfold log2Steps
      split_ifs with h
      · simpa using hn
      · have h2 : 1 ≤ n / 2 := by omega
        have h3 := ih (n / 2) h2
        rw [pow_succ]
        omega

theorem divNearestEven_bounds (a b : Nat) (hb : 0 < b) (hab : b ≤ a) :
    1 ≤ divNearestEven a b ∧ divNearestEven a b * b ≤ 2 * a := by
  have hq : 1 ≤ a / b := (Nat.one_le_div_iff hb).mpr hab
  have hqb : a / b * b ≤ a := Nat.div_mul_le_self a b
  have h1 : (a / b + 1) * b ≤ 2 * a := by
    rw [Nat.add_mul, Nat.one_mul]
    omega
  unfold divNearestEven
  simp only
  split_ifs
  · exact ⟨hq, by omega⟩
  · exact ⟨by omega, h1⟩
  · exact ⟨hq, by omega⟩
  · exact ⟨by omega, h1⟩

theorem divNearestEven_one (a : Nat) : divNearestEven a 1 = a := by
  simp [divNearestEven, Nat.mod_one]

theorem exponentOf_one (n : Nat) :
    exponentOf n 1 = (log2Steps n n : Int) ∨ exponentOf n 1 = (log2Steps n n : Int) - 1 := by
  have hd : log2Steps 1 1 = 0 := rfl
  unfold exponentOf
  simp only [hd, Nat.cast_zero, sub_zero]
  split_ifs
  all_goals first
    | (left; rfl)
    | (right; rfl)

/-- The magnitude to which a nonzero integer `n` rounds is nonzero and at most `2 * n`. -/
theorem scaledNearest_intCast (n B : Nat) (hn : 1 ≤ n) (hN : 2 * n < B) (t : Int)
    (ht : t ≤ (log2Steps n n : Int)) :
    ¬ (0 ≤ t ∧ B ≤ scaledNearest n 1 t * 2 ^ t.toNat) ∧
      scaled (scaledNearest n 1 t) t ≠ 0 := by
  have hL := log2Steps_le n n hn
  by_cases h : 0 ≤ t
  · have hle : t.toNat ≤ log2Steps n n := by omega
    have hpow : 2 ^ t.toNat ≤ n := le_trans (Nat.pow_le_pow_right (by norm_num) hle) hL
    have hb := divNearestEven_bounds n (2 ^ t.toNat) (by positivity) hpow
    simp only [scaledNearest, scaled, if_pos h, one_mul]
    constructor
    · rintro ⟨_, h2⟩
      omega
    · have h4 : (0 : ℚ) < (divNearestEven n (2 ^ t.toNat) : ℚ) := by exact_mod_cast hb.1
      positivity
  · simp only [scaledNearest, scaled, if_neg h, divNearestEven_one]
    constructor
    · rintro ⟨h1, _⟩
      exact h h1
    · have h4 : (0 : ℚ) < (n : ℚ) := by exact_mod_cast hn
      push_cast
      positivity

/-- The conversion `float64(N)` of a nonzero `int` is a nonzero finite value. -/
theorem round64_intCast (N : Int) (hN0 : N ≠ 0) (hN : 2 * N.natAbs < 2 ^ 1024) :
    ∃ c : ℚ, round64 (N : ℚ) = fin c ∧ c ≠ 0 := by
  have hq : (N : ℚ) ≠ 0 := Int.cast_ne_zero.mpr hN0
  have hn : 1 ≤ N.natAbs := Nat.one_le_iff_ne_zero.mpr (Int.natAbs_ne_zero.mpr hN0)
  have ht : max (exponentOf N.natAbs 1) (-1022) - 52 ≤ (log2Steps N.natAbs N.natAbs : Int) := by
    clear hN
    rcases exponentOf_one N.natAbs with h | h <;> rw [h] <;> omega
  obtain ⟨h1, h2⟩ := scaledNearest_intCast N.natAbs (2 ^ 1024) hn hN _ ht
  unfold round64
  rw [if_neg hq]
  simp only [Rat.num_intCast, Rat.den_intCast]
  rw [if_neg h1]
  refine ⟨_, rfl, ?_⟩
  split_ifs
  · exact neg_ne_zero.mpr h2
  · exact h2

theorem round64_zero : round64 0 = fin 0 := rfl

set_option exponentiation.threshold 1100 in
/-- The conversion `float64(N)` of a nonzero Go `int` is a nonzero finite value. -/
theorem round64_int (N : Int) (hN0 : N ≠ 0) (hlo : -(2 ^ 63) ≤ N) (hhi : N < 2 ^ 63) :
    ∃ c : ℚ, Rounded.ofInt round64 N = fin c ∧ c ≠ 0 := by
  have h1 : 2 * N.natAbs ≤ 2 ^ 64 := by omega
  exact round64_intCast N hN0
    (lt_of_le_of_lt h1 (Nat.pow_lt_pow_right (by decide) (by decide)))

theorem round64_one : round64 1 = Float64.fin 1 := by decide!

theorem floatLib_atoi_one : floatLib.Atoi "1" = 1 := by decide

theorem floatLib_f_one (N : Int) (a b n : Float64 ℚ) :
    Rounded.f round64 floatLib (newIntegral "1" N a b) n = .ok (Float64.fin 1) := by
  rw [rounded_f_of_parse round64 floatLib (newIntegral "1" N a b) (Expr.BasicLit Token.INT "1") rfl]
  simp [Rounded.Eval, pure, Except.pure, Rounded.ofInt, Rounded.round, floatLib_atoi_one,
    Float64.ofInt, round64_one]

theorem floatLib_f_identity (N : Int) (a b n : Float64 ℚ) :
    Rounded.f round64 floatLib (newIntegral "x" N a b) n = .ok n := by
  rw [rounded_f_of_parse round64 floatLib (newIntegral "x" N a b) (Expr.Ident "x") rfl]
  simp [Rounded.Eval, pure, Except.pure]


/-- The coefficient of a zero-width interval with a nonzero count is zero. -/
theorem rounded_coefficientOf_zero_width (ρ : α → Float64 α) (d : DiscreteIntegral α) (a : α)
    (ha : d.InitialX = fin a) (hb : d.EndX = fin a) (h0 : ρ 0 = fin 0)
    (hc : (∃ c, Rounded.ofInt ρ d.Intervals = fin c ∧ c ≠ 0) ∨
      Rounded.ofInt ρ d.Intervals = pinf ∨ Rounded.ofInt ρ d.Intervals = ninf) :
    Rounded.coefficientOf ρ d = fin 0 := by
  have hsub : Rounded.sub ρ (fin a) (fin a) = fin 0 := by
    simp [Rounded.sub, Rounded.round, h0]
  rw [Rounded.coefficientOf, ha, hb, hsub]
  rcases hc with ⟨c, h1, h2⟩ | h1 | h1
  · rw [h1]
    simp [Rounded.div, Rounded.round, fin_div, h2, h0]
  · rw [h1]
    show Rounded.round ρ (Float64.div (fin 0) pinf) = fin 0
    simp [Float64.div, Rounded.round, h0]
  · rw [h1]
    show Rounded.round ρ (Float64.div (fin 0) ninf) = fin 0
    simp [Float64.div, Rounded.round, h0]

theorem rounded_zero_mul (ρ : α → Float64 α) (h0 : ρ 0 = fin 0) (z : Float64 α) :
    Rounded.mul ρ (fin 0) z = match z with
      | fin _ => fin 0
      | _ => nan := by
  cases z with
  | fin v => simp [Rounded.mul, Rounded.round, fin_mul, h0]
  | pinf =>
      show Rounded.round ρ (Float64.mul (fin 0) pinf) = nan
      simp [Float64.mul, infTimes, Rounded.round]
  | ninf =>
      show Rounded.round ρ (Float64.mul (fin 0) ninf) = nan
      simp [Float64.mul, infTimes, Rounded.round]
  | nan => rfl

theorem floatLib_f_reciprocal (N : Int) (a b n : Float64 ℚ) :
    Rounded.f round64 floatLib (newIntegral "1/x" N a b) n
      = .ok (Rounded.div round64 (Float64.fin 1) n) := by
  rw [rounded_f_of_parse round64 floatLib (newIntegral "1/x" N a b)
    (Expr.BinaryExpr (Expr.BasicLit Token.INT "1") Token.QUO (Expr.Ident "x")) rfl]
  simp [Rounded.Eval, Rounded.EvalBinaryExpr, pure, Except.pure, bind, Except.bind,
    Rounded.ofInt, Rounded.round, floatLib_atoi_one, Float64.ofInt, round64_one]

/-- The program in `float64` arithmetic on the formula `x` over `[0, 10]` with 14
intervals: `50 + 2^-46` (50.000000000000014), where exact arithmetic gives 50. -/
theorem Calculate_float64_identity :
    (Rounded.Calculate round64 floatLib Ptr.result
      (stateOf (newIntegral "x" 14 (fin 0) (fin 10)))).map Prod.fst
        = .ok (fin (50 + 1 / 2 ^ 46)) := by
  have h1 : ∀ n, Rounded.f round64 floatLib
      ((stateOf (newIntegral "x" 14 (fin 0) (fin 10))).get Ptr.result) n
        = .ok ((fun x => x) n) := fun n => floatLib_f_identity 14 (fin 0) (fin 10) n
  have e1 : Rounded.resultOf round64 (fun x => x) (newIntegral "x" 14 (fin 0) (fin 10))
      = fin (50 + 1 / 2 ^ 46) := by decide!
  rw [rounded_Calculate_ok round64 floatLib Ptr.result _ _ h1]
  exact congrArg Except.ok e1

/-! ## The parser on chains of operators -/

theorem chainTokens_cons (p : Token × String) (rest : List (Token × String)) :
    Ref.chainTokens (p :: rest) = .OP p.1 :: .IDENT p.2 :: Ref.chainTokens rest := rfl

theorem parseUnaryExpr_name (k : Nat) (a : String) (rest : List (Token × String)) :
    Ref.parseUnaryExpr (k + 2) (.IDENT a :: Ref.chainTokens rest)
      = .ok (.Ident a, Ref.chainTokens rest) := by
  cases rest with
  | nil => simp [Ref.chainTokens, Ref.parseUnaryExpr, Ref.parseOperand, Ref.parseCalls, bind, Except.bind]
  | cons p rest =>
      simp [chainTokens_cons, Ref.parseUnaryExpr, Ref.parseOperand, Ref.parseCalls, bind, Except.bind]

/-- The five operators have precedence 4, or 5 for `*` and `/`. -/
theorem precedence_formulaOperators (p : Token × String)
    (hp : p.1 ∈ formulaOperators.map Prod.snd) :
    Ref.precedence p.1 = if tighter p then 5 else 4 := by
  simp only [formulaOperators, List.map, List.mem_cons, List.mem_singleton, List.not_mem_nil,
    or_false] at hp
  rcases hp with h | h | h | h | h <;> simp [tighter, h, Ref.precedence]

/-- After an operand, the loop of `parseBinaryExpr(6)` stops at once. -/
theorem parseBinaryRest_six (k : Nat) (x : Expr) (rest : List (Token × String))
    (h : ∀ p ∈ rest, p.1 ∈ formulaOperators.map Prod.snd) :
    Ref.parseBinaryRest (k + 1) 6 x (Ref.chainTokens rest) = .ok (x, Ref.chainTokens rest) := by
  cases rest with
  | nil => simp [Ref.chainTokens, Ref.parseBinaryRest]
  | cons p rest =>
      have hp := precedence_formulaOperators p (h p (List.mem_cons_self _ _))
      rw [chainTokens_cons, Ref.parseBinaryRest, if_pos]
      rw [hp]
      split_ifs <;> decide

/-- The right operand of `*` or `/`: the name that follows. -/
theorem parseBinaryExpr_six (k : Nat) (a : String) (rest : List (Token × String))
    (h : ∀ p ∈ rest, p.1 ∈ formulaOperators.map Prod.snd) :
    Ref.parseBinaryExpr (k + 3) 6 (.IDENT a :: Ref.chainTokens rest)
      = .ok (.Ident a, Ref.chainTokens rest) := by
  rw [Ref.parseBinaryExpr, parseUnaryExpr_name]
  exact parseBinaryRest_six (k + 1) _ rest h

/-- The loop of `parseBinaryExpr(5)` reads a term: the `*` and `/` that follow, grouped
from the left. -/
theorem parseBinaryRest_five (rest : List (Token × String))
    (h : ∀ p ∈ rest, p.1 ∈ formulaOperators.map Prod.snd) :
    ∀ (k : Nat) (x : Expr), rest.length + 3 ≤ k →
    Ref.parseBinaryRest (k + 1) 5 x (Ref.chainTokens rest)
      = .ok ((rest.takeWhile tighter).foldl (fun acc p => .BinaryExpr acc p.1 (.Ident p.2)) x,
          Ref.chainTokens (rest.dropWhile tighter)) := by
  induction rest with
  | nil =>
      intro k x _
      simp [Ref.chainTokens, Ref.parseBinaryRest]
  | cons p rest ih =>
      intro k x hk
      have hp := precedence_formulaOperators p (h p (List.mem_cons_self _ _))
      have hrest : ∀ q ∈ rest, q.1 ∈ formulaOperators.map Prod.snd :=
        fun q hq => h q (List.mem_cons_of_mem _ hq)
      simp only [List.length_cons] at hk
      obtain ⟨j, rfl⟩ := Nat.exists_eq_add_of_le hk
      rw [chainTokens_cons, Ref.parseBinaryRest, hp]
      by_cases ht : tighter p = true
      · rw [if_pos ht, if_neg (by decide), List.takeWhile_cons_of_pos ht,
          List.dropWhile_cons_of_pos ht, List.foldl_cons]
        have e : rest.length + 1 + 3 + j = (rest.length + j + 1) + 3 := by omega
        rw [e, parseBinaryExpr_six _ _ _ hrest]
        have e2 : rest.length + j + 1 + 3 = (rest.length + j + 3) + 1 := by omega
        rw [e2]
        exact ih hrest _ _ (by omega)
      · rw [if_neg ht, if_pos (by decide), List.takeWhile_cons_of_neg ht,
          List.dropWhile_cons_of_neg ht]
        rfl

/-- The right operand of `+`, `-` or `^`: the term that follows. -/
theorem parseBinaryExpr_five (k : Nat) (a : String) (rest : List (Token × String))
    (h : ∀ p ∈ rest, p.1 ∈ formulaOperators.map Prod.snd) (hk : rest.length + 3 ≤ k) :
    Ref.parseBinaryExpr (k + 2) 5 (.IDENT a :: Ref.chainTokens rest)
      = .ok ((rest.takeWhile tighter).foldl (fun acc p => .BinaryExpr acc p.1 (.Ident p.2))
            (.Ident a), Ref.chainTokens (rest.dropWhile tighter)) := by
  obtain ⟨j, rfl⟩ := Nat.exists_eq_add_of_le hk
  have e : rest.length + 3 + j + 1 = (rest.length + j + 2) + 2 := by omega
  rw [Ref.parseBinaryExpr, e, parseUnaryExpr_name]
  have e2 : rest.length + j + 2 + 2 = (rest.length + 3 + j) + 1 := by omega
  rw [e2]
  exact parseBinaryRest_five rest h _ _ (by omega)

theorem foldl_step_takeWhile (rest : List (Token × String)) :
    ∀ st : Grouping, rest.foldl Grouping.step st
      = (rest.dropWhile tighter).foldl Grouping.step
          (st.1, (rest.takeWhile tighter).foldl
            (fun acc p => .BinaryExpr acc p.1 (.Ident p.2)) st.2) := by
  induction rest with
  | nil => intro st; rfl
  | cons p rest ih =>
      intro st
      by_cases ht : tighter p = true
      · rw [List.takeWhile_cons_of_pos ht, List.dropWhile_cons_of_pos ht, List.foldl_cons,
          List.foldl_cons, ih]
        have h1 : p.1 = .MUL ∨ p.1 = .QUO := by simpa [tighter] using ht
        simp [Grouping.step, h1]
      · rw [List.takeWhile_cons_of_neg ht, List.dropWhile_cons_of_neg ht]
        rfl

theorem close_foldl_step (x t : Expr) (o : Token) (suf : List (Token × String))
    (h : ∀ q, suf.head? = some q → tighter q = false) :
    (suf.foldl Grouping.step (some (x, o), t)).close
      = (suf.foldl Grouping.step (none, .BinaryExpr x o t)).close := by
  cases suf with
  | nil => rfl
  | cons q suf =>
      have hq : ¬ (q.1 = .MUL ∨ q.1 = .QUO) := by
        have := h q rfl
        simpa [tighter] using this
      simp [List.foldl_cons, Grouping.step, hq, Grouping.close]

theorem head_dropWhile_tighter (rest : List (Token × String)) :
    ∀ q, (rest.dropWhile tighter).head? = some q → tighter q = false := by
  intro q hq
  have := List.head?_dropWhile_not tighter rest
  rw [hq] at this
  simpa using this

/-- The loop of `parseBinaryExpr(1)` on a chain of names and operators gives the
grouping by precedence. -/
theorem parseBinaryRest_one (n : Nat) :
    ∀ (rest : List (Token × String)), rest.length ≤ n →
    (∀ p ∈ rest, p.1 ∈ formulaOperators.map Prod.snd) →
    ∀ (k : Nat) (x : Expr), n + 5 ≤ k →
    Ref.parseBinaryRest (k + 1) 1 x (Ref.chainTokens rest)
      = .ok ((rest.foldl Grouping.step (none, x)).close, [.SEMICOLON]) := by
  induction n with
  | zero =>
      intro rest hlen _ k x _
      have : rest = [] := List.length_eq_zero.mp (Nat.le_zero.mp hlen)
      subst this
      simp [Ref.chainTokens, Ref.parseBinaryRest, Grouping.close]
  | succ n ih =>
      intro rest hlen h k x hk
      cases rest with
      | nil => simp [Ref.chainTokens, Ref.parseBinaryRest, Grouping.close]
      | cons p rest =>
          have hp := precedence_formulaOperators p (h p (List.mem_cons_self _ _))
          have hrest : ∀ q ∈ rest, q.1 ∈ formulaOperators.map Prod.snd :=
            fun q hq => h q (List.mem_cons_of_mem _ hq)
          simp only [List.length_cons] at hlen
          obtain ⟨j, rfl⟩ := Nat.exists_eq_add_of_le hk
          rw [chainTokens_cons, Ref.parseBinaryRest, hp, List.foldl_cons]
          by_cases ht : tighter p = true
          · have h1 : p.1 = .MUL ∨ p.1 = .QUO := by simpa [tighter] using ht
            rw [if_pos ht, if_neg (by decide)]
            have e : n + 1 + 5 + j = (n + j + 3) + 3 := by omega
            rw [e, parseBinaryExpr_six _ _ _ hrest]
            have e2 : n + j + 3 + 3 = (n + j + 5) + 1 := by omega
            rw [e2]
            simp only [bind, Except.bind]
            rw [ih rest (by omega) hrest _ _ (by omega)]
            simp [Grouping.step, h1]
          · have h1 : ¬ (p.1 = .MUL ∨ p.1 = .QUO) := by simpa [tighter] using ht
            rw [if_neg ht, if_neg (by decide)]
            have e : n + 1 + 5 + j = (n + j + 4) + 2 := by omega
            rw [e, parseBinaryExpr_five _ _ _ hrest (by omega)]
            have e2 : n + j + 4 + 2 = (n + j + 5) + 1 := by omega
            rw [e2]
            simp only [bind, Except.bind]
            have hsuf : rest.dropWhile tighter <:+ rest := List.dropWhile_suffix tighter
            rw [ih _ (le_trans hsuf.length_le (by omega))
              (fun q hq => hrest q (hsuf.subset hq)) _ _ (by omega)]
            rw [← close_foldl_step x _ p.1 _ (head_dropWhile_tighter rest),
              foldl_step_takeWhile rest]
            simp [Grouping.step, h1, Grouping.close]

/-- The parser on a chain of names and operators of the formula language. -/
theorem parseTokens_chain (x0 : String) (rest : List (Token × String))
    (h : ∀ p ∈ rest, p.1 ∈ formulaOperators.map Prod.snd) :
    Ref.parseTokens (.IDENT x0 :: Ref.chainTokens rest) = .ok (grouped x0 rest) := by
  have hlen : (Ref.chainTokens rest).length = 2 * rest.length + 1 := by
    induction rest with
    | nil => rfl
    | cons p rest ih =>
        rw [chainTokens_cons, List.length_cons, List.length_cons,
          ih (fun q hq => h q (List.mem_cons_of_mem _ hq)), List.length_cons]
        omega
  rw [Ref.parseTokens, List.length_cons, hlen]
  have e : 4 * (2 * rest.length + 1 + 1) + 8 = (8 * rest.length + 13) + 2 + 1 := by omega
  rw [e, Ref.parseBinaryExpr, parseUnaryExpr_name]
  simp only [bind, Except.bind]
  have e2 : 8 * rest.length + 13 + 2 = (8 * rest.length + 14) + 1 := by omega
  rw [e2, parseBinaryRest_one rest.length rest (le_refl _) h _ _ (by omega)]
  rfl

theorem parseTokens_three (p q : String × Token) (hp : p ∈ formulaOperators)
    (hq : q ∈ formulaOperators) (a b c : String) :
    Ref.parseTokens [.IDENT a, .OP p.2, .IDENT b, .OP q.2, .IDENT c, .SEMICOLON]
      = .ok (if (p.2 = .ADD ∨ p.2 = .SUB ∨ p.2 = .XOR) ∧ (q.2 = .MUL ∨ q.2 = .QUO)
          then .BinaryExpr (.Ident a) p.2 (.BinaryExpr (.Ident b) q.2 (.Ident c))
          else .BinaryExpr (.BinaryExpr (.Ident a) p.2 (.Ident b)) q.2 (.Ident c)) := by
  simp only [formulaOperators, List.mem_cons, List.mem_singleton, List.not_mem_nil, or_false] at hp hq
  rcases hp with rfl | rfl | rfl | rfl | rfl <;> rcases hq with rfl | rfl | rfl | rfl | rfl <;> rfl

theorem ParseExpr_three (p q : String × Token) (hp : p ∈ formulaOperators)
    (hq : q ∈ formulaOperators) :
    ratLib.ParseExpr ("a " ++ p.1 ++ " b " ++ q.1 ++ " c")
      = Ref.parseTokens [.IDENT "a", .OP p.2, .IDENT "b", .OP q.2, .IDENT "c", .SEMICOLON] := by
  simp only [formulaOperators, List.mem_cons, List.mem_singleton, List.not_mem_nil, or_false] at hp hq
  rcases hp with rfl | rfl | rfl | rfl | rfl <;> rcases hq with rfl | rfl | rfl | rfl | rfl <;> rfl


theorem ratLib_atoi_digit :
    ratLib.Atoi "1" = 1 ∧ ratLib.Atoi "2" = 2 ∧ ratLib.Atoi "3" = 3 ∧ ratLib.Atoi "4" = 4 ∧
    ratLib.Atoi "5" = 5 ∧ ratLib.Atoi "8" = 8 := by decide

theorem ratLib_f_difference_sum (N : Int) (a b n : Float64 ℚ) :
    f ratLib (newIntegral "2 - 3 + 4" N a b) n = .ok (fin 3) := by
  rw [f_of_parse ratLib (newIntegral "2 - 3 + 4" N a b)
    (Expr.BinaryExpr (Expr.BinaryExpr (Expr.BasicLit Token.INT "2") Token.SUB
      (Expr.BasicLit Token.INT "3")) Token.ADD (Expr.BasicLit Token.INT "4")) rfl]
  simp [Eval, EvalBinaryExpr, pure, Except.pure, bind, Except.bind, ofInt, ratLib_atoi_digit]
  norm_num

theorem ratLib_f_quotient_quotient (N : Int) (a b n : Float64 ℚ) :
    f ratLib (newIntegral "8 / 4 / 2" N a b) n = .ok (fin 1) := by
  rw [f_of_parse ratLib (newIntegral "8 / 4 / 2" N a b)
    (Expr.BinaryExpr (Expr.BinaryExpr (Expr.BasicLit Token.INT "8") Token.QUO
      (Expr.BasicLit Token.INT "4")) Token.QUO (Expr.BasicLit Token.INT "2")) rfl]
  simp [Eval, EvalBinaryExpr, pure, Except.pure, bind, Except.bind, ofInt, ratLib_atoi_digit]
  norm_num

theorem ratLib_f_product_power (N : Int) (a b n : Float64 ℚ) :
    f ratLib (newIntegral "2 * 3 ^ 2" N a b) n = .ok (fin 36) := by
  rw [f_of_parse ratLib (newIntegral "2 * 3 ^ 2" N a b)
    (Expr.BinaryExpr (Expr.BinaryExpr (Expr.BasicLit Token.INT "2") Token.MUL
      (Expr.BasicLit Token.INT "3")) Token.XOR (Expr.BasicLit Token.INT "2")) rfl]
  simp [Eval, EvalBinaryExpr, pure, Except.pure, bind, Except.bind, ofInt, ratLib_atoi_digit,
    ratLib_pow_two]
  norm_num

theorem ratLib_f_power_power (N : Int) (a b n : Float64 ℚ) :
    f ratLib (newIntegral "2 ^ 3 ^ 2" N a b) n = .ok (fin 64) := by
  rw [f_of_parse ratLib (newIntegral "2 ^ 3 ^ 2" N a b)
    (Expr.BinaryExpr (Expr.BinaryExpr (Expr.BasicLit Token.INT "2") Token.XOR
      (Expr.BasicLit Token.INT "3")) Token.XOR (Expr.BasicLit Token.INT "2")) rfl]
  have h : ratLib.Pow (fin 2) (fin 3) = fin 8 := by
    have h3 := ratLib_pow_nat 2 3
    norm_num at h3
    exact h3
  simp [Eval, EvalBinaryExpr, pure, Except.pure, bind, Except.bind, ofInt, ratLib_atoi_digit,
    ratLib_pow_two, h]
  norm_num

theorem ratLib_f_four_operands (N : Int) (a b n : Float64 ℚ) :
    f ratLib (newIntegral "1 + 2 * 3 - 8 / 4" N a b) n = .ok (fin 5) := by
  rw [f_of_parse ratLib (newIntegral "1 + 2 * 3 - 8 / 4" N a b)
    (Expr.BinaryExpr
      (Expr.BinaryExpr (Expr.BasicLit Token.INT "1") Token.ADD
        (Expr.BinaryExpr (Expr.BasicLit Token.INT "2") Token.MUL (Expr.BasicLit Token.INT "3")))
      Token.SUB
      (Expr.BinaryExpr (Expr.BasicLit Token.INT "8") Token.QUO (Expr.BasicLit Token.INT "4")))
    rfl]
  simp [Eval, EvalBinaryExpr, pure, Except.pure, bind, Except.bind, ofInt, ratLib_atoi_digit]
  norm_num

end Lemmas

/-! ## The integrator -/

section Integrator

open Float64

variable {α : Type} [LinearOrderedField α]

/-- C1.  For bounds `a = InitialX`, `b = EndX` and `N ≥ 1` intervals, when the formula
evaluates to `g n` at every point `n`, `Calculate` returns
`h * (g(a)/2 + S + g(b)/2)` with `h = (b - a)/N` and `S` the sum of `g(a + i*h)` over
`i = 1 .. N-1`: the composite trapezoidal rule. -/
theorem Calculate_trapezoidal_rule (L : GoLib α) (di : Ptr) (s : State α)
    (g : Float64 α → Float64 α) (a b : Float64 α) (N : Int)
    (ha : (s.get di).InitialX = a) (hb : (s.get di).EndX = b)
    (hN : (s.get di).Intervals = N) (_hN1 : 1 ≤ N)
    (hf : ∀ n, f L (s.get di) n = .ok (g n)) :
    (Calculate L di s).map Prod.fst =
      .ok ((b - a) / Float64.ofInt N *
        (g a / Float64.fin 2
          + ∑ i ∈ Finset.Icc (1 : Int) (N - 1),
              g (a + Float64.ofInt i * ((b - a) / Float64.ofInt N))
          + g b / Float64.fin 2)) := by
  rw [Calculate_ok L di s g hf]
  simp only [Except.map, resultOf, interior, coefficientOf, ha, hb, hN, sum_interior]

/-- Witness of C1: the formula `x` on `[0, 2]` with 2 intervals; the rule gives
`1 * (0/2 + 1 + 2/2) = 2`. -/
theorem Calculate_trapezoidal_rule_witness :
    (1 : Int) ≤ 2 ∧
    (∀ n, f ratLib ((stateOf (newIntegral "x" 2 (fin 0) (fin 2))).get Ptr.result) n = .ok n) ∧
    (Calculate ratLib Ptr.result (stateOf (newIntegral "x" 2 (fin 0) (fin 2)))).map Prod.fst
      = .ok (fin 2) := by
  have hf : ∀ n, f ratLib ((stateOf (newIntegral "x" 2 (fin 0) (fin 2))).get Ptr.result) n
      = .ok n := fun n => ratLib_f_identity 2 (fin 0) (fin 2) n
  refine ⟨by decide, hf, ?_⟩
  rw [Calculate_trapezoidal_rule ratLib Ptr.result (stateOf (newIntegral "x" 2 (fin 0) (fin 2)))
    (fun x => x) (fin 0) (fin 2) 2 rfl rfl rfl (by decide) hf]
  simp [ofInt]
  norm_num

/-- C2.  On the formula `"x"`, with finite bounds `a`, `b` and `N ≥ 1` intervals,
`Calculate` returns `(b^2 - a^2)/2` in exact arithmetic; in particular it returns 50
on `[0, 10]` for every `N ≥ 1`. -/
theorem Calculate_exact_on_identity (L : GoLib α) (di : Ptr) (s : State α) (a b : α) (N : Int)
    (hfn : (s.get di).Function = "x") (hparse : L.ParseExpr "x" = .ok (Expr.Ident "x"))
    (ha : (s.get di).InitialX = Float64.fin a) (hb : (s.get di).EndX = Float64.fin b)
    (hN : (s.get di).Intervals = N) (hN1 : 1 ≤ N) :
    (Calculate L di s).map Prod.fst = .ok (Float64.fin ((b ^ 2 - a ^ 2) / 2)) ∧
    (a = 0 → b = 10 → (Calculate L di s).map Prod.fst = .ok (Float64.fin 50)) := by
  have hf : ∀ n, f L (s.get di) n = .ok ((fun x => x) n) := by
    intro n
    rw [f_of_parse L _ _ (by rw [hfn]; exact hparse)]
    simp [Eval, pure, Except.pure]
  have hN' : (N : α) ≠ 0 := Int.cast_ne_zero.mpr (by omega)
  have key : (Calculate L di s).map Prod.fst = .ok (Float64.fin ((b ^ 2 - a ^ 2) / 2)) := by
    rw [Calculate_ok L di s _ hf, Except.map,
      resultOf_fin (fun x => x) (fun x => x) (fun _ => rfl) _ a b N ha hb hN (by omega),
      sum_linear, cast_toNat_pred N hN1]
    congr 2
    field_simp
    ring
  refine ⟨key, ?_⟩
  intro h0 h10
  rw [key, h0, h10]
  norm_num

/-- Witness of C2: the formula `x` on `[0, 10]` with 7 intervals gives 50. -/
theorem Calculate_exact_on_identity_witness :
    ratLib.ParseExpr "x" = .ok (Expr.Ident "x") ∧ (1 : Int) ≤ 7 ∧
    (Calculate ratLib Ptr.result (stateOf (newIntegral "x" 7 (fin 0) (fin 10)))).map Prod.fst
      = .ok (fin 50) :=
  ⟨rfl, by decide,
    (Calculate_exact_on_identity ratLib Ptr.result (stateOf (newIntegral "x" 7 (fin 0) (fin 10)))
      0 10 7 rfl rfl rfl rfl rfl (by decide)).2 rfl rfl⟩

/-- Counterexample to C3 as stated.  In `float64` arithmetic the formula `1` on `[0, 1]`
with 49 intervals gives `1 - 2^-53` (0.9999999999999999) while `b - a = 1`; and on
`[0.1, 0.3]` with 3 intervals it gives 0.2 while `b - a` is 0.19999999999999998. -/
theorem Calculate_constant_one_float64 :
    ((Rounded.Calculate round64 floatLib Ptr.result
        (stateOf (newIntegral "1" 49 (fin 0) (fin 1)))).map Prod.fst
        = .ok (fin (1 - 1 / 2 ^ 53)) ∧
      Rounded.sub round64 (fin 1) (fin 0) = fin 1 ∧
      (fin (1 - 1 / 2 ^ 53) : Float64 ℚ) ≠ fin 1) ∧
    ((Rounded.Calculate round64 floatLib Ptr.result
        (stateOf (newIntegral "1" 3 (round64 (1 / 10)) (round64 (3 / 10))))).map Prod.fst
        = .ok (round64 (1 / 5)) ∧
      round64 (1 / 5) ≠ Rounded.sub round64 (round64 (3 / 10)) (round64 (1 / 10))) := by
  have hf : ∀ N a b n, Rounded.f round64 floatLib
      ((stateOf (newIntegral "1" N a b)).get Ptr.result) n
        = .ok ((fun _ => fin 1) n) := fun N a b n => floatLib_f_one N a b n
  have h1 : Rounded.resultOf round64 (fun _ => fin 1) (newIntegral "1" 49 (fin 0) (fin 1))
      = fin (1 - 1 / 2 ^ 53) := by decide!
  have h2 : Rounded.resultOf round64 (fun _ => fin 1)
      (newIntegral "1" 3 (round64 (1 / 10)) (round64 (3 / 10))) = round64 (1 / 5) := by decide!
  refine ⟨⟨?_, by decide!, by decide!⟩, ?_, by decide!⟩
  · rw [rounded_Calculate_ok round64 floatLib Ptr.result _ _ (hf _ _ _)]
    exact congrArg Except.ok h1
  · rw [rounded_Calculate_ok round64 floatLib Ptr.result _ _ (hf _ _ _)]
    exact congrArg Except.ok h2

/-- C3, amended.  In exact arithmetic (no rounding): on the constant formula `"1"`, for
every pair of bounds `a`, `b` and every positive interval count `N`, `Calculate`
returns `b - a`. -/
theorem Calculate_constant_one (L : GoLib α) (di : Ptr) (s : State α) (a b : Float64 α)
    (N : Int) (hfn : (s.get di).Function = "1")
    (hparse : L.ParseExpr "1" = .ok (Expr.BasicLit Token.INT "1")) (hatoi : L.Atoi "1" = 1)
    (ha : (s.get di).InitialX = a) (hb : (s.get di).EndX = b)
    (hN : (s.get di).Intervals = N) (hN1 : 1 ≤ N) :
    (Calculate L di s).map Prod.fst = .ok (b - a) := by
  have hf : ∀ n, f L (s.get di) n = .ok ((fun _ => Float64.fin 1) n) := by
    intro n
    rw [f_of_parse L _ _ (by rw [hfn]; exact hparse)]
    simp [Eval, pure, Except.pure, hatoi, ofInt]
  have hpos : (0 : α) < (N : α) := by
    have : (0 : Int) < N := by omega
    exact_mod_cast this
  have hsum : Float64.fin (1 : α) / Float64.fin (2 : α)
      + ∑ _j ∈ Finset.range (N - 1).toNat, Float64.fin (1 : α)
      + Float64.fin (1 : α) / Float64.fin (2 : α) = Float64.fin (N : α) := by
    rw [sum_fin]
    simp only [fin_div, fin_add, Finset.sum_const, Finset.card_range, nsmul_eq_mul,
      cast_toNat_pred N hN1]
    rw [if_neg two_ne_zero]
    simp only [fin_add]
    congr 1
    ring
  rw [Calculate_ok L di s _ hf, Except.map]
  simp only [resultOf, coefficientOf, interior, sum_points, ha, hb, hN, hsum, ofInt]
  rw [div_mul_cancel_pos _ _ hpos]

/-- Witness of C3, amended: the formula `1` on `[3, 8]` with 4 intervals gives `8 - 3`. -/
theorem Calculate_constant_one_witness :
    ratLib.ParseExpr "1" = .ok (Expr.BasicLit Token.INT "1") ∧ ratLib.Atoi "1" = 1 ∧
    (1 : Int) ≤ 4 ∧
    (Calculate ratLib Ptr.result (stateOf (newIntegral "1" 4 (fin 3) (fin 8)))).map Prod.fst
      = .ok (fin 8 - fin 3) :=
  ⟨rfl, by decide, by decide,
    Calculate_constant_one ratLib Ptr.result (stateOf (newIntegral "1" 4 (fin 3) (fin 8)))
      (fin 3) (fin 8) 4 rfl rfl (by decide) rfl rfl rfl (by decide)⟩

/-- C4.  On the formula `x / (1 + (x^2))` with symmetric finite bounds `-c`, `c` and
`N ≥ 1` intervals, `Calculate` returns 0 in exact arithmetic (`math.Pow(v, 2)` being
`v^2`): the formula is odd and the sample points are symmetric about 0. -/
theorem Calculate_odd_formula_symmetric_bounds (L : GoLib α) (di : Ptr) (s : State α) (c : α)
    (N : Int)
    (hfn : (s.get di).Function = "x / (1 + (x^2))")
    (hparse : L.ParseExpr "x / (1 + (x^2))" = .ok
      (Expr.BinaryExpr (Expr.Ident "x") Token.QUO
        (Expr.ParenExpr (Expr.BinaryExpr (Expr.BasicLit Token.INT "1") Token.ADD
          (Expr.ParenExpr (Expr.BinaryExpr (Expr.Ident "x") Token.XOR
            (Expr.BasicLit Token.INT "2")))))))
    (hatoi1 : L.Atoi "1" = 1) (hatoi2 : L.Atoi "2" = 2)
    (hpow : ∀ v : α, L.Pow (Float64.fin v) (Float64.fin 2) = Float64.fin (v ^ 2))
    (ha : (s.get di).InitialX = Float64.fin (-c)) (hb : (s.get di).EndX = Float64.fin c)
    (hN : (s.get di).Intervals = N) (hN1 : 1 ≤ N) :
    (Calculate L di s).map Prod.fst = .ok (Float64.fin 0) := by
  have hf : ∀ n, f L (s.get di) n =
      .ok ((fun x => x / (Float64.fin 1 + L.Pow x (Float64.fin 2))) n) := by
    intro n
    rw [f_of_parse L _ _ (by rw [hfn]; exact hparse)]
    simp [Eval, EvalBinaryExpr, pure, Except.pure, bind, Except.bind, hatoi1, hatoi2, ofInt]
  have hden : ∀ x : α, 1 + x ^ 2 ≠ 0 := fun x => by positivity
  have hg : ∀ x : α, (fun x => x / (Float64.fin 1 + L.Pow x (Float64.fin 2))) (Float64.fin x)
      = Float64.fin ((fun x : α => x / (1 + x ^ 2)) x) := by
    intro x
    simp [hpow, hden]
  have hN' : (N : α) ≠ 0 := Int.cast_ne_zero.mpr (by omega)
  have hodd : ∀ x : α, (-x) / (1 + (-x) ^ 2) = -(x / (1 + x ^ 2)) := by
    intro x
    rw [neg_sq, neg_div]
  rw [Calculate_ok L di s _ hf, Except.map, resultOf_fin _ _ hg _ (-c) c N ha hb hN (by omega)]
  have hk : (((N - 1).toNat : Nat) : α) = (N : α) - 1 := cast_toNat_pred N hN1
  have hsum : ∑ j ∈ Finset.range (N - 1).toNat,
      (fun x : α => x / (1 + x ^ 2)) (-c + ((1 : α) + j) * ((c - -c) / N)) = 0 := by
    apply sum_antisymmetric
    intro j hj
    have hcast : (((N - 1).toNat - 1 - j : Nat) : α) = (N : α) - 1 - 1 - j := by
      rw [Nat.cast_sub (by omega), Nat.cast_sub (by omega), hk]
      simp
    show (-c + ((1 : α) + ((N - 1).toNat - 1 - j : Nat)) * ((c - -c) / N)) /
        (1 + (-c + ((1 : α) + ((N - 1).toNat - 1 - j : Nat)) * ((c - -c) / N)) ^ 2) = _
    rw [hcast, ← hodd]
    have hpt : -c + ((1 : α) + ((N : α) - 1 - 1 - j)) * ((c - -c) / N)
        = -(-c + ((1 : α) + j) * ((c - -c) / N)) := by
      field_simp
      ring
    rw [hpt]
  rw [hsum]
  simp only [hodd]
  congr 2
  ring

/-- Witness of C4: the configuration of `main`, `c = 5` and `N = 1000`. -/
theorem Calculate_odd_formula_symmetric_bounds_witness :
    ratLib.ParseExpr "x / (1 + (x^2))" = .ok
      (Expr.BinaryExpr (Expr.Ident "x") Token.QUO
        (Expr.ParenExpr (Expr.BinaryExpr (Expr.BasicLit Token.INT "1") Token.ADD
          (Expr.ParenExpr (Expr.BinaryExpr (Expr.Ident "x") Token.XOR
            (Expr.BasicLit Token.INT "2")))))) ∧
    (∀ v : ℚ, ratLib.Pow (fin v) (fin 2) = fin (v ^ 2)) ∧ (1 : Int) ≤ 1000 ∧
    (Calculate ratLib Ptr.result
      (stateOf (newIntegral "x / (1 + (x^2))" 1000 (fin (-5)) (fin 5)))).map Prod.fst
      = .ok (fin 0) :=
  ⟨rfl, ratLib_pow_two, by decide,
    Calculate_odd_formula_symmetric_bounds ratLib Ptr.result
      (stateOf (newIntegral "x / (1 + (x^2))" 1000 (fin (-5)) (fin 5))) 5 1000
      rfl rfl ratLib_atoi_one ratLib_atoi_two ratLib_pow_two rfl rfl rfl (by decide)⟩

/-- Counterexample to C5 as stated.  With `InitialX = EndX = 0`: the formula `1/x` and
one interval give `0 * (Inf/2 + 0 + Inf/2) = NaN`, and the formula `x` with zero
intervals gives the coefficient `0/0 = NaN` and the result `NaN`. -/
theorem Calculate_zero_width_nan :
    (Calculate ratLib Ptr.result (stateOf (newIntegral "1/x" 1 (fin 0) (fin 0)))).map Prod.fst
      = .ok Float64.nan ∧
    (Calculate ratLib Ptr.result (stateOf (newIntegral "x" 0 (fin 0) (fin 0)))).map Prod.fst
      = .ok Float64.nan := by
  constructor
  · have hf : ∀ n, f ratLib ((stateOf (newIntegral "1/x" 1 (fin 0) (fin 0))).get Ptr.result) n
        = .ok ((fun x => fin 1 / x) n) := fun n => ratLib_f_reciprocal 1 (fin 0) (fin 0) n
    rw [Calculate_ok ratLib Ptr.result _ _ hf]
    simp [Except.map, resultOf, coefficientOf, interior, points, stateOf, newIntegral, State.get,
      ofInt, infTimes]
    rfl
  · have hf : ∀ n, f ratLib ((stateOf (newIntegral "x" 0 (fin 0) (fin 0))).get Ptr.result) n
        = .ok ((fun x => x) n) := fun n => ratLib_f_identity 0 (fin 0) (fin 0) n
    rw [Calculate_ok ratLib Ptr.result _ _ hf]
    simp [Except.map, resultOf, coefficientOf, interior, points, stateOf, newIntegral, State.get,
      ofInt, infTimes]
    rfl

/-- C5, amended.  In `float64` arithmetic: when `InitialX = EndX = a` is finite, the
interval count `N` is a nonzero `int` (other than the least one, where `N - 1` wraps)
and the formula evaluates to `g`, the coefficient `(b - a)/N` is 0, and `Calculate`
returns 0 if the bracket `g(a)/2 + sum + g(b)/2` that it multiplies is finite, and
`NaN` if the bracket is infinite or `NaN`. -/
theorem Calculate_zero_width (L : GoLib ℚ) (di : Ptr) (s : State ℚ)
    (g : Float64 ℚ → Float64 ℚ) (a : ℚ) (N : Int)
    (ha : (s.get di).InitialX = Float64.fin a) (hb : (s.get di).EndX = Float64.fin a)
    (hN : (s.get di).Intervals = N) (hN0 : N ≠ 0) (hlo : -(2 ^ 63) < N) (hhi : N < 2 ^ 63)
    (hf : ∀ n, Rounded.f round64 L (s.get di) n = .ok (g n)) :
    Rounded.coefficientOf round64 (s.get di) = Float64.fin 0 ∧
    (Rounded.Calculate round64 L di s).map Prod.fst
      = .ok (match Rounded.bracket round64 g (s.get di) with
          | Float64.fin _ => Float64.fin 0
          | _ => Float64.nan) := by
  have hco := rounded_coefficientOf_zero_width round64 (s.get di) a ha hb round64_zero
    (Or.inl (by rw [hN]; exact round64_int N hN0 (le_of_lt hlo) hhi))
  refine ⟨hco, ?_⟩
  rw [rounded_Calculate_ok round64 L di s g hf, Except.map, Rounded.resultOf, hco,
    rounded_zero_mul round64 round64_zero]
  cases Rounded.bracket round64 g (s.get di) <;> rfl

/-- Witness of C5, amended: the formula `x` on `[2, 2]` with -3 intervals and the
formula `1/x` on `[2, 2]` with 3 intervals give 0; the formula `x` on `[2^1023, 2^1023]`
with 2 intervals, where the sum of the samples overflows, gives `NaN`. -/
theorem Calculate_zero_width_witness :
    ((-3 : Int) ≠ 0 ∧ -(2 ^ 63) < (-3 : Int) ∧ (-3 : Int) < 2 ^ 63 ∧
      (Rounded.Calculate round64 floatLib Ptr.result
        (stateOf (newIntegral "x" (-3) (fin 2) (fin 2)))).map Prod.fst = .ok (fin 0)) ∧
    ((3 : Int) ≠ 0 ∧ -(2 ^ 63) < (3 : Int) ∧ (3 : Int) < 2 ^ 63 ∧
      (Rounded.Calculate round64 floatLib Ptr.result
        (stateOf (newIntegral "1/x" 3 (fin 2) (fin 2)))).map Prod.fst = .ok (fin 0)) ∧
    ((2 : Int) ≠ 0 ∧ -(2 ^ 63) < (2 : Int) ∧ (2 : Int) < 2 ^ 63 ∧
      (Rounded.Calculate round64 floatLib Ptr.result
        (stateOf (newIntegral "x" 2 (fin (2 ^ 1023)) (fin (2 ^ 1023))))).map Prod.fst
          = .ok nan) := by
  have h1 := (Calculate_zero_width floatLib Ptr.result
    (stateOf (newIntegral "x" (-3) (fin 2) (fin 2))) (fun x => x) 2 (-3) rfl rfl rfl
    (by decide) (by decide) (by decide)
    (fun n => floatLib_f_identity (-3) (fin 2) (fin 2) n)).2
  have h2 := (Calculate_zero_width floatLib Ptr.result
    (stateOf (newIntegral "1/x" 3 (fin 2) (fin 2))) (fun x => Rounded.div round64 (fin 1) x)
    2 3 rfl rfl rfl (by decide) (by decide) (by decide)
    (fun n => floatLib_f_reciprocal 3 (fin 2) (fin 2) n)).2
  have h3 := (Calculate_zero_width floatLib Ptr.result
    (stateOf (newIntegral "x" 2 (fin (2 ^ 1023)) (fin (2 ^ 1023)))) (fun x => x)
    (2 ^ 1023) 2 rfl rfl rfl (by decide) (by decide) (by decide)
    (fun n => floatLib_f_identity 2 (fin (2 ^ 1023)) (fin (2 ^ 1023)) n)).2
  exact ⟨⟨by decide, by decide, by decide, h1.trans (congrArg Except.ok (by decide!))⟩,
    ⟨by decide, by decide, by decide, h2.trans (congrArg Except.ok (by decide!))⟩,
    ⟨by decide, by decide, by decide, h3.trans (congrArg Except.ok (by decide!))⟩⟩

/-- C6.  After one `Calculate` with `N ≥ 1` intervals that starts with an empty sample
sequence, the samples recorded (in the package variable `result`, which is the
receiver in the program) are exactly `N + 1`, the first x is `InitialX` and the last
x is `EndX`. -/
theorem Calculate_sample_count (L : GoLib α) (di : Ptr) (s s1 : State α) (r : Float64 α)
    (N : Int) (hX : s.result.X = []) (hY : s.result.Y = [])
    (hN : (s.get di).Intervals = N) (hN1 : 1 ≤ N)
    (hrun : Calculate L di s = .ok (r, s1)) :
    (s1.result.X.length : Int) = N + 1 ∧ (s1.result.Y.length : Int) = N + 1 ∧
    s1.result.X.head? = some (s.get di).InitialX ∧
    s1.result.X.getLast? = some (s.get di).EndX := by
  obtain ⟨g, _, hp⟩ := Calculate_ok_inv L di s _ hrun
  have hs1 : s1 = finalState g di s := congrArg Prod.snd hp
  have hk : (((N - 1).toNat : Nat) : Int) = N - 1 := Int.toNat_of_nonneg (by omega)
  subst hs1
  rw [finalState_result_X, finalState_result_Y, hX, hY]
  simp only [List.nil_append, samplesX, samplesY, interior, hN, List.length_cons,
    List.length_append, List.length_map, length_points, List.length_singleton, List.length_nil]
  refine ⟨by push_cast; omega, by push_cast; omega, rfl, ?_⟩
  rw [List.getLast?_cons, List.getLast?_append]
  simp

/-- Witness of C6: the formula `x` on `[0, 2]` with 2 intervals, called on `result`;
the run returns and leaves 3 samples, from 0 to 2. -/
theorem Calculate_sample_count_witness :
    (1 : Int) ≤ 2 ∧
    Calculate ratLib Ptr.result (stateOf (newIntegral "x" 2 (fin 0) (fin 2)))
      = .ok (resultOf (fun x => x) (newIntegral "x" 2 (fin 0) (fin 2)),
          finalState (fun x => x) Ptr.result (stateOf (newIntegral "x" 2 (fin 0) (fin 2)))) ∧
    ((finalState (fun x => x) Ptr.result
      (stateOf (newIntegral "x" 2 (fin (0 : ℚ)) (fin 2)))).result.X.length : Int) = 2 + 1 ∧
    (finalState (fun x => x) Ptr.result
      (stateOf (newIntegral "x" 2 (fin (0 : ℚ)) (fin 2)))).result.X.head? = some (fin 0) ∧
    (finalState (fun x => x) Ptr.result
      (stateOf (newIntegral "x" 2 (fin (0 : ℚ)) (fin 2)))).result.X.getLast? = some (fin 2) := by
  have hf : ∀ n, f ratLib ((stateOf (newIntegral "x" 2 (fin 0) (fin 2))).get Ptr.result) n
      = .ok ((fun x => x) n) := fun n => ratLib_f_identity 2 (fin 0) (fin 2) n
  have hrun := Calculate_ok ratLib Ptr.result (stateOf (newIntegral "x" 2 (fin 0) (fin 2))) _ hf
  have h := Calculate_sample_count ratLib Ptr.result
    (stateOf (newIntegral "x" 2 (fin 0) (fin 2))) _ _ 2 rfl rfl rfl (by decide) hrun
  exact ⟨by decide, hrun, h.1, h.2.2.1, h.2.2.2⟩

/-- C7, the code at a receiver other than `result`.  `Calculate` called on an object
with the formula `x`, bounds `[0, 2]` and 2 intervals returns 2 and stores 2 in the
receiver's `Result`, but the receiver's `X` and `Y` stay empty: the three samples are
appended to the package variable `result`. -/
theorem Calculate_samples_go_to_result :
    ∃ s1 : State ℚ,
      Calculate ratLib Ptr.heap
        { result := newIntegral "" 0 (fin 0) (fin 0), heap := newIntegral "x" 2 (fin 0) (fin 2) }
        = .ok (fin 2, s1) ∧
      s1.heap.X = [] ∧ s1.heap.Y = [] ∧ s1.heap.Result = fin 2 ∧
      s1.result.X = [fin 0, fin 1, fin 2] ∧ s1.result.Y = [fin 0, fin 1, fin 2] := by
  have hf : ∀ n, f ratLib ((⟨newIntegral "" 0 (fin 0) (fin 0),
      newIntegral "x" 2 (fin 0) (fin 2)⟩ : State ℚ).get Ptr.heap) n = .ok ((fun x => x) n) :=
    fun n => ratLib_f_identity 2 (fin 0) (fin 2) n
  refine ⟨finalState (fun x => x) Ptr.heap
    ⟨newIntegral "" 0 (fin 0) (fin 0), newIntegral "x" 2 (fin 0) (fin 2)⟩, ?_, ?_⟩
  · rw [Calculate_ok ratLib Ptr.heap _ _ hf]
    congr 2
    simp [resultOf, coefficientOf, interior, points, newIntegral, State.get, ofInt,
      List.range_succ]
    norm_num
  · simp [finalState, record, State.set, State.get, samplesX, samplesY, resultOf, coefficientOf,
      interior, points, newIntegral, ofInt, List.range_succ]
    norm_num

/-- C8.  If the formula does not parse, `Calculate` stops with the parser's error
(`log.Fatal`) at the first evaluation of the formula: the state is the one it was
called in, so no sample is recorded and `Result` is not set. -/
theorem Calculate_aborts_on_parse_error (L : GoLib α) (di : Ptr) (s : State α) (err : String)
    (h : L.ParseExpr (s.get di).Function = .error err) :
    Calculate L di s = .error (Failure.fatal err, s) := by
  simp [Calculate, callF, f, h, bind, Except.bind, throw, throwThe, MonadExceptOf.throw]

/-- Witness of C8: the formula `x +`. -/
theorem Calculate_aborts_on_parse_error_witness :
    ratLib.ParseExpr "x +" = .error "expected operand" ∧
    Calculate ratLib Ptr.result (stateOf (newIntegral "x +" 1000 (fin (-5)) (fin 5)))
      = .error (Failure.fatal "expected operand",
          stateOf (newIntegral "x +" 1000 (fin (-5)) (fin 5))) :=
  ⟨rfl, Calculate_aborts_on_parse_error ratLib Ptr.result
    (stateOf (newIntegral "x +" 1000 (fin (-5)) (fin 5))) "expected operand" rfl⟩

/-- Counterexample to C16 as stated.  In `float64` arithmetic, on the formula `x` with
`InitialX = 2^-1074` (the least positive value, 5e-324), `EndX = 1` and one interval,
the formula's value at `InitialX` is `2^-1074`, but the sample recorded there has
`y = (2^-1074 / 2) * 2 = 0`: the recorded pairs are `(2^-1074, 0)` and `(1, 1)`. -/
theorem Calculate_recorded_samples_float64 :
    Rounded.f round64 floatLib (newIntegral "x" 1 (fin (1 / 2 ^ 1074)) (fin 1))
      (fin (1 / 2 ^ 1074)) = .ok (fin (1 / 2 ^ 1074)) ∧
    (fin (1 / 2 ^ 1074) : Float64 ℚ) ≠ fin 0 ∧
    ∃ r s1, Rounded.Calculate round64 floatLib Ptr.result
        (stateOf (newIntegral "x" 1 (fin (1 / 2 ^ 1074)) (fin 1))) = .ok (r, s1) ∧
      s1.result.X = [fin (1 / 2 ^ 1074), fin 1] ∧ s1.result.Y = [fin 0, fin 1] := by
  have hf : ∀ n, Rounded.f round64 floatLib
      ((stateOf (newIntegral "x" 1 (fin (1 / 2 ^ 1074)) (fin 1))).get Ptr.result) n
        = .ok ((fun x => x) n) := fun n => floatLib_f_identity 1 _ _ n
  refine ⟨floatLib_f_identity 1 _ _ _, by decide!, _, _,
    rounded_Calculate_ok round64 floatLib Ptr.result _ _ hf, ?_, ?_⟩
  · rw [rounded_finalState_result_X]
    rfl
  · rw [rounded_finalState_result_Y]
    have h : Rounded.samplesY round64 (fun x => x)
        (newIntegral "x" 1 (fin (1 / 2 ^ 1074)) (fin 1)) = [fin 0, fin 1] := by decide!
    exact h

/-- C16, amended.  In `float64` arithmetic with any rounding `ρ`: after one `Calculate`
with `N ≥ 1` intervals that starts with an empty sample sequence, on a formula that
evaluates to `g`, the recorded x-values are `a`, then `xs`: the points `a + i*h` for
`i = 1 .. N-1` in increasing `i`, with `h = (b - a)/N`, then `b`; the recorded y-values
are `(g(a)/2) * 2`, then `g` of every point of `xs`, then `(g(b)/2) * 2`.  So every
interior pair satisfies `y = g(x)`, and an endpoint pair does whenever `g(x)` is
infinite, `NaN`, or a finite value `v` such that `v/2` and `v` are not changed by
rounding. -/
theorem Calculate_recorded_samples (ρ : α → Float64 α) (L : GoLib α) (di : Ptr) (s : State α)
    (g : Float64 α → Float64 α) (a b : Float64 α) (N : Int)
    (hX : s.result.X = []) (hY : s.result.Y = [])
    (ha : (s.get di).InitialX = a) (hb : (s.get di).EndX = b)
    (hN : (s.get di).Intervals = N) (_hN1 : 1 ≤ N)
    (hf : ∀ n, Rounded.f ρ L (s.get di) n = .ok (g n)) :
    ∃ r s1 xs, Rounded.Calculate ρ L di s = .ok (r, s1) ∧
      xs = (List.range (N - 1).toNat).map (fun j : Nat =>
        Rounded.add ρ a (Rounded.mul ρ (Rounded.ofInt ρ (1 + (j : Int)))
          (Rounded.div ρ (Rounded.sub ρ b a) (Rounded.ofInt ρ N)))) ∧
      s1.result.X = a :: (xs ++ [b]) ∧
      s1.result.Y = Rounded.mul ρ (Rounded.div ρ (g a) (Float64.fin 2)) (Float64.fin 2) ::
        (xs.map g ++ [Rounded.mul ρ (Rounded.div ρ (g b) (Float64.fin 2)) (Float64.fin 2)]) ∧
      ∀ x, (∀ v, g x = Float64.fin v → ρ (v / 2) = Float64.fin (v / 2) ∧ ρ v = Float64.fin v) →
        Rounded.mul ρ (Rounded.div ρ (g x) (Float64.fin 2)) (Float64.fin 2) = g x := by
  refine ⟨_, _, _, rounded_Calculate_ok ρ L di s g hf, rfl, ?_, ?_,
    fun x h => rounded_half_mul_two ρ (g x) h⟩
  · rw [rounded_finalState_result_X, hX]
    simp only [List.nil_append, Rounded.samplesX, Rounded.interior, Rounded.points,
      Rounded.coefficientOf, ha, hb, hN]
  · rw [rounded_finalState_result_Y, hY]
    simp only [List.nil_append, Rounded.samplesY, Rounded.interior, Rounded.points,
      Rounded.coefficientOf, ha, hb, hN]

/-- Witness of C16, amended: the formula `x` on `[0, 2]` with 2 intervals in binary64
records `(0, 0)`, `(1, 1)`, `(2, 2)`. -/
theorem Calculate_recorded_samples_witness :
    (1 : Int) ≤ 2 ∧
    ∃ r s1, Rounded.Calculate round64 floatLib Ptr.result
        (stateOf (newIntegral "x" 2 (fin 0) (fin 2))) = .ok (r, s1) ∧
      s1.result.X = [fin 0, fin 1, fin 2] ∧ s1.result.Y = [fin 0, fin 1, fin 2] := by
  obtain ⟨r, s1, xs, h1, h2, h3, h4, _⟩ := Calculate_recorded_samples round64 floatLib Ptr.result
    (stateOf (newIntegral "x" 2 (fin 0) (fin 2))) (fun x => x) (fin 0) (fin 2) 2
    rfl rfl rfl rfl rfl (by decide) (fun n => floatLib_f_identity 2 (fin 0) (fin 2) n)
  have h5 : xs = [fin 1] := h2.trans (by decide!)
  subst h5
  exact ⟨by decide, r, s1, h1, h3, h4.trans (by decide!)⟩

/-- C18.  Two calls of `Calculate` on the same receiver, the first starting with an
empty sample sequence and `N ≥ 1`: both return the same value, and after the second
the samples are those left by the first followed by the same `N + 1` samples again,
`2 * (N + 1)` in all. -/
theorem Calculate_twice (L : GoLib α) (di : Ptr) (s : State α) (g : Float64 α → Float64 α)
    (N : Int) (hX : s.result.X = []) (hY : s.result.Y = [])
    (hN : (s.get di).Intervals = N) (hN1 : 1 ≤ N)
    (hf : ∀ n, f L (s.get di) n = .ok (g n)) :
    ∃ r s1 s2, Calculate L di s = .ok (r, s1) ∧ Calculate L di s1 = .ok (r, s2) ∧
      s2.result.X = s1.result.X ++ s1.result.X ∧ s2.result.Y = s1.result.Y ++ s1.result.Y ∧
      (s1.result.X.length : Int) = N + 1 ∧ (s2.result.X.length : Int) = 2 * (N + 1) := by
  obtain ⟨hF, hI, hA, hB⟩ := finalState_get g di s
  have hf1 : ∀ n, f L ((finalState g di s).get di) n = .ok (g n) := by
    intro n
    rw [f_congr L _ _ hF n]
    exact hf n
  obtain ⟨hr, hx, hy⟩ := closed_form_congr g _ _ hI hA hB
  have hk : (((N - 1).toNat : Nat) : Int) = N - 1 := Int.toNat_of_nonneg (by omega)
  have hlen : ((samplesX (s.get di)).length : Int) = N + 1 := by
    simp only [samplesX, interior, hN, List.length_cons, List.length_append, length_points,
      List.length_singleton, List.length_nil]
    push_cast
    omega
  refine ⟨resultOf g (s.get di), finalState g di s, finalState g di (finalState g di s),
    Calculate_ok L di s g hf, ?_, ?_, ?_, ?_, ?_⟩
  · rw [Calculate_ok L di (finalState g di s) g hf1, hr]
  · rw [finalState_result_X, hx, finalState_result_X, hX, List.nil_append]
  · rw [finalState_result_Y, hy, finalState_result_Y, hY, List.nil_append]
  · rw [finalState_result_X, hX, List.nil_append]
    exact hlen
  · rw [finalState_result_X, hx, finalState_result_X, hX, List.nil_append, List.length_append]
    push_cast
    omega

/-- Witness of C18: the formula `x` on `[0, 2]` with 2 intervals, called twice on
`result`. -/
theorem Calculate_twice_witness :
    (1 : Int) ≤ 2 ∧
    ∃ r s1 s2, Calculate ratLib Ptr.result (stateOf (newIntegral "x" 2 (fin 0) (fin 2)))
        = .ok (r, s1) ∧
      Calculate ratLib Ptr.result s1 = .ok (r, s2) ∧
      s2.result.X = s1.result.X ++ s1.result.X ∧ s2.result.Y = s1.result.Y ++ s1.result.Y ∧
      (s1.result.X.length : Int) = 2 + 1 ∧ (s2.result.X.length : Int) = 2 * (2 + 1) :=
  ⟨by decide,
    Calculate_twice ratLib Ptr.result (stateOf (newIntegral "x" 2 (fin 0) (fin 2)))
      (fun x => x) 2 rfl rfl rfl (by decide) (fun n => ratLib_f_identity 2 (fin 0) (fin 2) n)⟩

end Integrator

/-! ## The evaluator -/

section EvaluatorClaims

open Float64

variable {α : Type} [LinearOrderedField α]

/-- C9.  On a tree without a variable (numeric literals, the constant `e`,
parentheses, unary and binary operators, calls to recognized functions) `Eval` gives
the same outcome at every two points `x1`, `x2`. -/
theorem Eval_constant_without_variable (L : GoLib α) (t : Expr) (x1 x2 : Float64 α)
    (h : noVariable t = true) : Eval L t x1 = Eval L t x2 := by
  induction t using Expr.induct with
  | hU Op X ih =>
      simp only [noVariable] at h
      simp only [Eval, ih h]
  | hB X Op Y ih1 ih2 =>
      simp only [noVariable, Bool.and_eq_true] at h
      simp only [Eval, ih1 h.1, ih2 h.2]
  | hL Kind Value => cases Kind <;> rfl
  | hP X ih =>
      simp only [noVariable] at h
      simp only [Eval, ih h]
  | hI Name =>
      simp only [noVariable, beq_iff_eq] at h
      simp [Eval, h]
  | hC Fun Args ih =>
      cases Fun with
      | Ident name =>
          simp only [noVariable, Bool.and_eq_true] at h
          have hargs := mem_noVariableList Args h.2
          obtain ⟨fn, hfn⟩ := unaryFn_of_recognized L name h.1
          cases Args with
          | nil => simp [Eval]
          | cons arg rest =>
              have h0 := ih arg (List.mem_cons_self _ _) (hargs arg (List.mem_cons_self _ _))
              by_cases hlog : name = "log" ∧ ∃ arg1, rest = [arg1]
              · obtain ⟨rfl, arg1, rfl⟩ := hlog
                rw [Eval_call_log_two, Eval_call_log_two, h0,
                  ih arg1 (by simp) (hargs arg1 (by simp))]
              · have hl : name = "log" → ∀ arg1, rest ≠ [arg1] :=
                  fun h0 arg1 h1 => hlog ⟨h0, arg1, h1⟩
                rw [Eval_call_unary L name arg rest x1 hl, Eval_call_unary L name arg rest x2 hl,
                  hfn, h0]
                rfl
      | _ => simp [noVariable] at h
  | hO => rfl

/-- Witness of C9: the tree of `abs(-3) + (e)` at the points 0 and 1. -/
theorem Eval_constant_without_variable_witness :
    noVariable (Expr.BinaryExpr
        (Expr.CallExpr (Expr.Ident "abs") [Expr.UnaryExpr Token.SUB (Expr.BasicLit Token.INT "3")])
        Token.ADD (Expr.ParenExpr (Expr.Ident "e"))) = true ∧
    Eval ratLib (Expr.BinaryExpr
        (Expr.CallExpr (Expr.Ident "abs") [Expr.UnaryExpr Token.SUB (Expr.BasicLit Token.INT "3")])
        Token.ADD (Expr.ParenExpr (Expr.Ident "e"))) (fin 0) =
    Eval ratLib (Expr.BinaryExpr
        (Expr.CallExpr (Expr.Ident "abs") [Expr.UnaryExpr Token.SUB (Expr.BasicLit Token.INT "3")])
        Token.ADD (Expr.ParenExpr (Expr.Ident "e"))) (fin 1) :=
  ⟨by decide, Eval_constant_without_variable ratLib _ (fin 0) (fin 1) (by decide)⟩

/-- C10.  `Eval` of an identifier node returns `math.E` when the name is `"e"`, at
every `x`, and the input `x` itself for every other name; so the variable `x`
evaluates to the point. -/
theorem Eval_Ident (L : GoLib α) (name : String) (x : Float64 α) :
    Eval L (Expr.Ident name) x = .ok (if name = "e" then L.E else x) ∧
    Eval L (Expr.Ident "e") x = .ok L.E ∧
    Eval L (Expr.Ident "x") x = .ok x := by
  refine ⟨?_, ?_, ?_⟩
  · simp only [Eval]
    split <;> rfl
  · simp [Eval, pure, Except.pure]
  · simp [Eval, pure, Except.pure]

/-- C11.  For a binary node whose operands evaluate at `x` to `l` and `r`, `Eval`
returns `l + r`, `l - r`, `l * r`, `l / r` for the operators `+ - * /` and
`math.Pow(l, r)` for `^`; with `math.Pow` the power on natural exponents, the tree of
`2^3` evaluates to 8 at every `x`. -/
theorem Eval_binary_operators (L : GoLib α) (X Y : Expr) (x l r : Float64 α)
    (hl : Eval L X x = .ok l) (hr : Eval L Y x = .ok r)
    (hatoi2 : L.Atoi "2" = 2) (hatoi3 : L.Atoi "3" = 3)
    (hpow : ∀ (v : α) (k : Nat),
      L.Pow (Float64.fin v) (Float64.fin (k : α)) = Float64.fin (v ^ k)) :
    Eval L (Expr.BinaryExpr X Token.ADD Y) x = .ok (l + r) ∧
    Eval L (Expr.BinaryExpr X Token.SUB Y) x = .ok (l - r) ∧
    Eval L (Expr.BinaryExpr X Token.MUL Y) x = .ok (l * r) ∧
    Eval L (Expr.BinaryExpr X Token.QUO Y) x = .ok (l / r) ∧
    Eval L (Expr.BinaryExpr X Token.XOR Y) x = .ok (L.Pow l r) ∧
    Eval L (Expr.BinaryExpr (Expr.BasicLit Token.INT "2") Token.XOR
      (Expr.BasicLit Token.INT "3")) x = .ok (Float64.fin 8) := by
  refine ⟨Eval_BinaryExpr_ok L X Y _ x l r hl hr, Eval_BinaryExpr_ok L X Y _ x l r hl hr,
    Eval_BinaryExpr_ok L X Y _ x l r hl hr, Eval_BinaryExpr_ok L X Y _ x l r hl hr,
    Eval_BinaryExpr_ok L X Y _ x l r hl hr, ?_⟩
  have h := hpow 2 3
  simp only [Nat.cast_ofNat] at h
  simp [Eval, EvalBinaryExpr, bind, Except.bind, pure, Except.pure, hatoi2, hatoi3, ofInt, h]
  norm_num

/-- Witness of C11: the trees of `2 / x` and `2^3` at `x = 5`. -/
theorem Eval_binary_operators_witness :
    Eval ratLib (Expr.BasicLit Token.INT "2") (fin 5) = .ok (fin 2) ∧
    Eval ratLib (Expr.Ident "x") (fin 5) = .ok (fin 5) ∧
    Eval ratLib (Expr.BinaryExpr (Expr.BasicLit Token.INT "2") Token.QUO (Expr.Ident "x")) (fin 5)
      = .ok (fin 2 / fin 5) ∧
    Eval ratLib (Expr.BinaryExpr (Expr.BasicLit Token.INT "2") Token.XOR
      (Expr.BasicLit Token.INT "3")) (fin 5) = .ok (fin 8) := by
  have hl : Eval ratLib (Expr.BasicLit Token.INT "2") (fin 5) = .ok (fin 2) := by
    simp [Eval, pure, Except.pure, ofInt, ratLib_atoi_two]
  have hr : Eval ratLib (Expr.Ident "x") (fin 5) = .ok (fin 5) := by
    simp [Eval, pure, Except.pure]
  have h := Eval_binary_operators ratLib _ _ (fin 5) (fin 2) (fin 5) hl hr ratLib_atoi_two
    (by decide) ratLib_pow_nat
  exact ⟨hl, hr, h.2.2.2.1, h.2.2.2.2.2⟩

/-- C12.  `Eval` of a call to `log` with exactly two arguments returns
`math.Log(first) / math.Log(second)`, and with one argument `math.Log(first)`; with
`math.Log` the natural logarithm on positive reals, `log(8, 2)` evaluates to 3 at
every `x`. -/
theorem Eval_log (L : GoLib ℝ) (a b : Expr) (x va vb : Float64 ℝ)
    (ha : Eval L a x = .ok va) (hb : Eval L b x = .ok vb)
    (hatoi8 : L.Atoi "8" = 8) (hatoi2 : L.Atoi "2" = 2)
    (hlog : ∀ v : ℝ, 0 < v → L.Log (Float64.fin v) = Float64.fin (Real.log v)) :
    Eval L (Expr.CallExpr (Expr.Ident "log") [a, b]) x = .ok (L.Log va / L.Log vb) ∧
    Eval L (Expr.CallExpr (Expr.Ident "log") [a]) x = .ok (L.Log va) ∧
    Eval L (Expr.CallExpr (Expr.Ident "log")
      [Expr.BasicLit Token.INT "8", Expr.BasicLit Token.INT "2"]) x = .ok (Float64.fin 3) := by
  have h2 : Real.log 2 ≠ 0 := ne_of_gt (Real.log_pos (by norm_num))
  refine ⟨?_, ?_, ?_⟩
  · rw [Eval_call_log_two, ha, hb]
    rfl
  · rw [Eval_call_unary L "log" a [] x (fun _ arg1 h => by cases h), ha]
    rfl
  · rw [Eval_call_log_two]
    simp only [Eval, hatoi8, hatoi2, ofInt, bind, Except.bind, pure, Except.pure, Log,
      Int.cast_ofNat]
    rw [hlog 8 (by norm_num), hlog 2 (by norm_num), fin_div, if_neg h2, log_eight_div_log_two]

/-- Witness of C12: the real-valued library, `log(8, 2)` at `x = 0`. -/
theorem Eval_log_witness :
    (∀ v : ℝ, 0 < v → realLib.Log (fin v) = fin (Real.log v)) ∧
    Eval realLib (Expr.CallExpr (Expr.Ident "log")
      [Expr.BasicLit Token.INT "8", Expr.BasicLit Token.INT "2"]) (fin 0) = .ok (fin 3) := by
  have hlog : ∀ v : ℝ, 0 < v → realLib.Log (fin v) = fin (Real.log v) := by
    intro v hv
    simp [realLib, not_lt.mpr (le_of_lt hv), ne_of_gt hv]
  have h8 : realLib.Atoi "8" = 8 := by decide
  have h2 : realLib.Atoi "2" = 2 := by decide
  exact ⟨hlog, (Eval_log realLib (Expr.Ident "x") (Expr.Ident "x") (fin 0) (fin 0) (fin 0)
    (by simp [Eval, pure, Except.pure]) (by simp [Eval, pure, Except.pure]) h8 h2 hlog).2.2⟩

/-- C13.  The alias names are interchangeable: at every `x`, `mod(t, ...)` and
`abs(t, ...)` both give the absolute value of the value of `t`, `sen` and `sin` both
give `math.Sin` of it, `arcsen` and `arcsin` both give `math.Asin` of it (and fail
exactly when `t` does). -/
theorem Eval_alias_names (L : GoLib α) (t : Expr) (rest : List Expr) (x : Float64 α) :
    Eval L (Expr.CallExpr (Expr.Ident "mod") (t :: rest)) x
      = (Eval L t x).map Float64.abs ∧
    Eval L (Expr.CallExpr (Expr.Ident "abs") (t :: rest)) x
      = (Eval L t x).map Float64.abs ∧
    Eval L (Expr.CallExpr (Expr.Ident "sen") (t :: rest)) x
      = (Eval L t x).map L.Sin ∧
    Eval L (Expr.CallExpr (Expr.Ident "sin") (t :: rest)) x
      = (Eval L t x).map L.Sin ∧
    Eval L (Expr.CallExpr (Expr.Ident "arcsen") (t :: rest)) x
      = (Eval L t x).map L.Asin ∧
    Eval L (Expr.CallExpr (Expr.Ident "arcsin") (t :: rest)) x
      = (Eval L t x).map L.Asin ∧
    (∀ v : α, Float64.abs (Float64.fin v) = Float64.fin |v|) := by
  refine ⟨?_, ?_, ?_, ?_, ?_, ?_, fun _ => rfl⟩ <;>
  · rw [Eval_call_unary L _ t rest x (fun h => absurd h (by decide))]
    cases Eval L t x <;> rfl

/-- C15.  On a well-formed tree (each call node has an identifier as callee and at
least one argument) `Eval` returns a value at every `x`; so a failure of `Eval` is
only possible on a tree with a call that has no argument or a callee that is not an
identifier. -/
theorem Eval_never_fails_on_wellFormed (L : GoLib α) (t : Expr) (x : Float64 α) :
    (wellFormed t = true → ∃ v, Eval L t x = .ok v) ∧
    (∀ e, Eval L t x = .error e → wellFormed t = false) := by
  refine ⟨Eval_ok_of_wellFormed L t x, ?_⟩
  intro e he
  cases hw : wellFormed t with
  | false => rfl
  | true =>
      obtain ⟨v, hv⟩ := Eval_ok_of_wellFormed L t x hw
      rw [hv] at he
      cases he

/-- Witness of C15: the tree of `foo(x) / 0` is well-formed and evaluates; the tree of
`sin()` fails and is not well-formed. -/
theorem Eval_never_fails_on_wellFormed_witness :
    wellFormed (Expr.BinaryExpr (Expr.CallExpr (Expr.Ident "foo") [Expr.Ident "x"]) Token.QUO
      (Expr.BasicLit Token.INT "0")) = true ∧
    (∃ v, Eval ratLib (Expr.BinaryExpr (Expr.CallExpr (Expr.Ident "foo") [Expr.Ident "x"])
      Token.QUO (Expr.BasicLit Token.INT "0")) (fin 3) = .ok v) ∧
    Eval ratLib (Expr.CallExpr (Expr.Ident "sin") []) (fin 3) = .error Failure.panic ∧
    wellFormed (Expr.CallExpr (Expr.Ident "sin") []) = false :=
  ⟨by decide,
    (Eval_never_fails_on_wellFormed ratLib
      (Expr.BinaryExpr (Expr.CallExpr (Expr.Ident "foo") [Expr.Ident "x"]) Token.QUO
        (Expr.BasicLit Token.INT "0")) (fin 3)).1 (by decide),
    rfl,
    (Eval_never_fails_on_wellFormed ratLib (Expr.CallExpr (Expr.Ident "sin") []) (fin 3)).2
      Failure.panic rfl⟩

/-- C19.  For a call node with at least one argument whose function name is not one of
`log, sin, sen, cos, tan, arcsin, arcsen, arccos, arctan, mod, abs`, `Eval` returns
the input `x`, whatever the arguments are (they are not evaluated). -/
theorem Eval_unrecognized_call (L : GoLib α) (name : String) (arg : Expr) (rest : List Expr)
    (x : Float64 α) (h : recognized name = false) :
    Eval L (Expr.CallExpr (Expr.Ident name) (arg :: rest)) x = .ok x := by
  have hn : unaryFn L name = none := by
    simp only [recognized, List.mem_cons, decide_eq_false_iff_not, List.mem_singleton,
      List.not_mem_nil, or_false, not_or] at h
    obtain ⟨h1, h2, h3, h4, h5, h6, h7, h8, h9, h10, h11⟩ := h
    simp [unaryFn, h1, h2, h3, h4, h5, h6, h7, h8, h9, h10, h11]
  rw [Eval_call_unary L name arg rest x (fun h0 => by simp [recognized, h0] at h), hn]
  rfl

/-- Witness of C19: `sqrt(sin(), e)` at `x = 7` gives 7, although its first argument
would fail. -/
theorem Eval_unrecognized_call_witness :
    recognized "sqrt" = false ∧
    Eval ratLib (Expr.CallExpr (Expr.Ident "sqrt")
      [Expr.CallExpr (Expr.Ident "sin") [], Expr.Ident "e"]) (fin 7) = .ok (fin 7) :=
  ⟨by decide, Eval_unrecognized_call ratLib "sqrt" _ _ (fin 7) (by decide)⟩

/-- C20.  For a binary node whose operator is not one of `+ - * / ^`, the `switch` of
`EvalBinaryExpr` gives 0 for every pair of operand values, and `Eval` returns 0 at
every `x` where the two operands evaluate. -/
theorem Eval_other_binary_operator (L : GoLib α) (X Y : Expr) (Op : Token) (x l r : Float64 α)
    (hOp : Op ≠ Token.ADD ∧ Op ≠ Token.SUB ∧ Op ≠ Token.MUL ∧ Op ≠ Token.QUO ∧ Op ≠ Token.XOR)
    (hl : Eval L X x = .ok l) (hr : Eval L Y x = .ok r) :
    EvalBinaryExpr L Op l r = Float64.fin 0 ∧
    Eval L (Expr.BinaryExpr X Op Y) x = .ok (Float64.fin 0) := by
  have h0 : EvalBinaryExpr L Op l r = Float64.fin 0 := by
    obtain ⟨h1, h2, h3, h4, h5⟩ := hOp
    cases Op <;> first | rfl | contradiction
  exact ⟨h0, by rw [Eval_BinaryExpr_ok L X Y Op x l r hl hr, h0]⟩

/-- Witness of C20: the tree of `x % e` at `x = 7`. -/
theorem Eval_other_binary_operator_witness :
    Eval ratLib (Expr.BinaryExpr (Expr.Ident "x") Token.REM (Expr.Ident "e")) (fin 7)
      = .ok (fin 0) :=
  (Eval_other_binary_operator ratLib (Expr.Ident "x") (Expr.Ident "e") Token.REM (fin 7) (fin 7)
    ratLib.E (by decide) (by simp [Eval, pure, Except.pure])
    (by simp [Eval, pure, Except.pure])).2

end EvaluatorClaims

/-! ## Parsing and evaluating formula text -/

section FormulaText

open Float64

/-- Counterexample to C14 as stated.  `"1 + x^2"` is parsed as `(1 + x)^2`: at
`x = 1` the formula evaluates to 4, not to `1 + 1*1 = 2`. -/
theorem formula_power_binds_like_addition :
    ratLib.ParseExpr "1 + x^2" = .ok
      (Expr.BinaryExpr (Expr.BinaryExpr (Expr.BasicLit Token.INT "1") Token.ADD (Expr.Ident "x"))
        Token.XOR (Expr.BasicLit Token.INT "2")) ∧
    f ratLib (newIntegral "1 + x^2" 1 (fin 0) (fin 0)) (fin 1) = .ok (fin 4) ∧
    f ratLib (newIntegral "1 + x^2" 1 (fin 0) (fin 0)) (fin 1) ≠ .ok (fin (1 + 1 * 1)) := by
  have h := ratLib_f_one_plus_x_pow_two 1 (fin 0) (fin 0) 1
  refine ⟨rfl, ?_, ?_⟩
  · rw [h]
    norm_num
  · rw [h]
    intro h2
    have h3 := Float64.fin.inj (Except.ok.inj h2)
    norm_num at h3

/-- C14, amended.  Formula text is parsed with the precedences of Go: `*` and `/` bind
tighter than `+`, `-` and `^`, which share one level, and both levels group from the
left.  (1) The parser gives every chain `x0 o1 x1 ... on xn` of names and these
operators the tree `grouped`.  (2) For three operands and every pair of the
operators, `a o1 b o2 c` is `a o1 (b o2 c)` when `o1` is one of `+`, `-`, `^` and `o2`
one of `*`, `/`, and `(a o1 b) o2 c` otherwise; (3) so it is on the text
`a o1 b o2 c`.  (4) `"2 + 3 * 4"` evaluates to 14 at every `x`, `"2 - 3 + 4"` to 3,
`"8 / 4 / 2"` to 1, `"2 * 3 ^ 2"` to `(2 * 3)^2 = 36`, `"2 ^ 3 ^ 2"` to
`(2^3)^2 = 64`, `"1 + 2 * 3 - 8 / 4"` to 5, `"1 + x^2"` to `(1 + x)^2`, and it is
`"1 + (x^2)"` that evaluates to `1 + x*x`. -/
theorem formula_precedence :
    (∀ (x0 : String) (rest : List (Token × String)),
      (∀ p ∈ rest, p.1 ∈ formulaOperators.map Prod.snd) →
      Ref.parseTokens (.IDENT x0 :: Ref.chainTokens rest) = .ok (grouped x0 rest)) ∧
    (∀ p ∈ formulaOperators, ∀ q ∈ formulaOperators, ∀ a b c : String,
      Ref.parseTokens [.IDENT a, .OP p.2, .IDENT b, .OP q.2, .IDENT c, .SEMICOLON]
        = .ok (if (p.2 = .ADD ∨ p.2 = .SUB ∨ p.2 = .XOR) ∧ (q.2 = .MUL ∨ q.2 = .QUO)
            then .BinaryExpr (.Ident a) p.2 (.BinaryExpr (.Ident b) q.2 (.Ident c))
            else .BinaryExpr (.BinaryExpr (.Ident a) p.2 (.Ident b)) q.2 (.Ident c))) ∧
    (∀ p ∈ formulaOperators, ∀ q ∈ formulaOperators,
      ratLib.ParseExpr ("a " ++ p.1 ++ " b " ++ q.1 ++ " c")
        = .ok (if (p.2 = .ADD ∨ p.2 = .SUB ∨ p.2 = .XOR) ∧ (q.2 = .MUL ∨ q.2 = .QUO)
            then .BinaryExpr (.Ident "a") p.2 (.BinaryExpr (.Ident "b") q.2 (.Ident "c"))
            else .BinaryExpr (.BinaryExpr (.Ident "a") p.2 (.Ident "b")) q.2 (.Ident "c"))) ∧
    (∀ x : Float64 ℚ, f ratLib (newIntegral "2 + 3 * 4" 1 (fin 0) (fin 0)) x = .ok (fin 14)) ∧
    (∀ x : Float64 ℚ, f ratLib (newIntegral "2 - 3 + 4" 1 (fin 0) (fin 0)) x = .ok (fin 3)) ∧
    (∀ x : Float64 ℚ, f ratLib (newIntegral "8 / 4 / 2" 1 (fin 0) (fin 0)) x = .ok (fin 1)) ∧
    (∀ x : Float64 ℚ, f ratLib (newIntegral "2 * 3 ^ 2" 1 (fin 0) (fin 0)) x = .ok (fin 36)) ∧
    (∀ x : Float64 ℚ, f ratLib (newIntegral "2 ^ 3 ^ 2" 1 (fin 0) (fin 0)) x = .ok (fin 64)) ∧
    (∀ x : Float64 ℚ, f ratLib (newIntegral "1 + 2 * 3 - 8 / 4" 1 (fin 0) (fin 0)) x
      = .ok (fin 5)) ∧
    (∀ v : ℚ, f ratLib (newIntegral "1 + x^2" 1 (fin 0) (fin 0)) (fin v)
      = .ok (fin ((1 + v) ^ 2))) ∧
    (∀ v : ℚ, f ratLib (newIntegral "1 + (x^2)" 1 (fin 0) (fin 0)) (fin v)
      = .ok (fin (1 + v * v))) :=
  ⟨fun x0 rest h => parseTokens_chain x0 rest h,
   fun p hp q hq a b c => parseTokens_three p q hp hq a b c,
   fun p hp q hq => (ParseExpr_three p q hp hq).trans (parseTokens_three p q hp hq "a" "b" "c"),
   fun x => ratLib_f_sum_product 1 (fin 0) (fin 0) x,
   fun x => ratLib_f_difference_sum 1 (fin 0) (fin 0) x,
   fun x => ratLib_f_quotient_quotient 1 (fin 0) (fin 0) x,
   fun x => ratLib_f_product_power 1 (fin 0) (fin 0) x,
   fun x => ratLib_f_power_power 1 (fin 0) (fin 0) x,
   fun x => ratLib_f_four_operands 1 (fin 0) (fin 0) x,
   fun v => ratLib_f_one_plus_x_pow_two 1 (fin 0) (fin 0) v,
   fun v => ratLib_f_one_plus_paren 1 (fin 0) (fin 0) v⟩

end FormulaText

end FunLabs
